import Mathlib

/-!
Backup job: registry, restore points, persisted state.

A shallow embedding of `BackupSystem.cpp` and `StorageStrategies.cpp`.

* C++ `char` sequences (`std::string`, native path strings, file contents) are `List Char`.
* The filesystem is a finite table from resolved locations to nodes.  Paths follow the POSIX
  conventions of `std::filesystem`: `/` separates, a leading `/` makes a path absolute, `.` and
  `..` are resolved lexically, the working directory is the root, there are no symbolic links.
* A node is a regular file, a directory, or a location whose status cannot be read.  There are
  no permissions beyond that, and no limit on space: opening a regular file, and writing into an
  existing directory, succeed.
* OpenSSL's SHA-256 and the `strftime` rendering of the restore-point directory name are
  external; they are carried in `Env`, with the value an uninitialised local integer happens to
  hold.
* The two mutexes are not modelled: every operation runs to its end, alone.  Calls of
  `cancelOperation()` that arrive while `restore` runs are given by a `CancelSchedule`.
* Exceptions become `Except Error _`; every `throw` site of the source has its own constructor.
-/

set_option autoImplicit false

namespace Backup

/-! ## Paths -/

/-- A sequence of C++ `char`: `std::string`, or the bytes of a file. -/
abbrev Str := List Char

/-- The native string of a `std::filesystem::path`. -/
abbrev Path := List Char

/-- A resolved location: the component names leading from the root directory. -/
abbrev Key := List Str

/-- Split at every `/`; there is always at least one segment. -/
def splitSlash : Path → List Str
  | [] => [[]]
  | c :: cs =>
    if c = '/' then [] :: splitSlash cs
    else
      match splitSlash cs with
      | [] => [[c]]
      | s :: ss => (c :: s) :: ss

/-- The member `path::filename()`: the text after the last separator. -/
def filename (p : Path) : Str := (splitSlash p).getLastD []

/-- The member `path::is_absolute()` (POSIX: the path has a root directory). -/
def isAbsolute (p : Path) : Bool := p.head? == some '/'

/-- The member `path::has_filename()`. -/
def hasFilename (p : Path) : Bool := filename p != []

/-- The operator `p / q` of `std::filesystem::path`. -/
def pathJoin (p q : Path) : Path :=
  if isAbsolute q then q
  else if hasFilename p then p ++ '/' :: q
  else p ++ q

/-- The elements a path iterates over after its root directory: the non-empty segments, and
an empty final element when the path ends in a separator. -/
def pathElems (p : Path) : List Str :=
  let names := (splitSlash p).filter (fun s => s != [])
  if names != [] && filename p == [] then names ++ [[]] else names

/-- The operator `==` of `std::filesystem::path`: element-wise comparison. -/
def pathEq (a b : Path) : Bool :=
  isAbsolute a == isAbsolute b && pathElems a == pathElems b

/-- One step of lexical resolution: empty segments and `.` stay, `..` goes up, a name goes down. -/
def pushSeg (k : Key) (s : Str) : Key :=
  if s = [] ∨ s = ['.'] then k
  else if s = ['.', '.'] then k.dropLast
  else k ++ [s]

/-- The location a path names. -/
def resolve (p : Path) : Key := (splitSlash p).foldl pushSeg []

/-- A path whose last segment is empty, `.` or `..` can only name a directory. -/
def needsDir (p : Path) : Bool :=
  filename p == [] || filename p == ['.'] || filename p == ['.', '.']

/-! ## Filesystem -/

/-- What sits at a location.  `noaccess` is a location whose status cannot be determined
(the `error_code` overloads report an error there, the throwing overloads throw). -/
inductive Node where
  | file (bytes : Str)
  | dir
  | noaccess
  deriving DecidableEq, Repr

/-- A filesystem state: the first entry for a location is the live one. -/
structure FS where
  entries : List (Key × Node)
  deriving DecidableEq, Repr

/-- The result of `fs::status`. -/
inductive Status where
  | notFound
  | regular (bytes : Str)
  | directory
  | unknown
  deriving DecidableEq, Repr

namespace FS

/-- The node at a location; the root directory always exists. -/
def node (fs : FS) (k : Key) : Option Node :=
  if k = [] then some Node.dir else fs.entries.lookup k

/-- Put a node at a location, replacing what was there. -/
def put (fs : FS) (k : Key) (n : Node) : FS := ⟨(k, n) :: fs.entries⟩

/-- The call `fs::status(p, ec)`. -/
def status (fs : FS) (p : Path) : Status :=
  if p = [] then Status.notFound
  else
    match fs.node (resolve p) with
    | none => Status.notFound
    | some (Node.file b) => if needsDir p then Status.notFound else Status.regular b
    | some Node.dir => Status.directory
    | some Node.noaccess => Status.unknown

/-- Opening `std::ifstream(p)`: the bytes of a regular file, or failure.  A directory and a
location without access cannot be opened as a byte stream. -/
def openRead (fs : FS) (p : Path) : Option Str :=
  match fs.status p with
  | Status.regular b => some b
  | _ => none

/-- Every proper ancestor of `k` is missing or a directory. -/
def ancestorsOk (fs : FS) (k : Key) : Bool :=
  k.inits.dropLast.all (fun q => fs.node q == none || fs.node q == some Node.dir)

/-- Add a directory at every listed location that has no node yet. -/
def addDirs (fs : FS) : List Key → FS
  | [] => fs
  | q :: qs => addDirs (if fs.node q == none then fs.put q Node.dir else fs) qs

/-- The call `fs::create_directories(p, ec)`: `ok true` when the directory was created,
`ok false` when it already was one, `error` when `ec` is set. -/
def createDirectories (fs : FS) (p : Path) : Except Unit (Bool × FS) :=
  if p = [] then Except.error ()
  else
    match fs.node (resolve p) with
    | some Node.dir => Except.ok (false, fs)
    | some _ => Except.error ()
    | none =>
      if fs.ancestorsOk (resolve p) then Except.ok (true, fs.addDirs (resolve p).inits)
      else Except.error ()

/-- Writing the bytes of a regular file at `src` over the location `dst`: the file-level core of
`fs::copy_file` with `overwrite_existing`.  It fails when both are the same file, when the
directory holding `dst` is missing, and when `dst` exists and is not a regular file. -/
def writeFile (fs : FS) (b : Str) (src dst : Key) : Option FS :=
  if dst == src || fs.node dst.dropLast != some Node.dir then none
  else
    match fs.node dst with
    | none => some (fs.put dst (Node.file b))
    | some (Node.file _) => some (fs.put dst (Node.file b))
    | some _ => none

/-- The call `fs::copy_file(src, dst, overwrite_existing, ec)`; `none` when `ec` is set. -/
def copyFile (fs : FS) (src dst : Path) : Option FS :=
  match fs.status src with
  | Status.regular b =>
    if needsDir dst then none else fs.writeFile b (resolve src) (resolve dst)
  | _ => none

/-- The names of the entries of the directory at `k`. -/
def children (fs : FS) (k : Key) : List Str :=
  (fs.entries.filterMap
    (fun e => if e.1.dropLast = k ∧ e.1 ≠ [] then e.1.getLast? else none)).dedup

/-- Recursive copy between locations (`fs::copy` with `recursive | overwrite_existing`):
a regular file goes into an existing directory under its own name and otherwise onto the
target; a directory is created when missing and its entries are copied one by one, stopping
at the first failure.  The first component is `false` when an error was reported; the
recursion depth is bounded by the number of entries. -/
def copyTree : Nat → FS → Key → Key → Bool × FS
  | 0, fs, _, _ => (false, fs)
  | fuel + 1, fs, src, dst =>
    match fs.node src, fs.node dst with
    | some (Node.file b), some Node.dir =>
      match fs.writeFile b src (dst ++ [src.getLastD []]) with
      | some fs1 => (true, fs1)
      | none => (false, fs)
    | some (Node.file b), some (Node.file _) =>
      match fs.writeFile b src dst with
      | some fs1 => (true, fs1)
      | none => (false, fs)
    | some (Node.file b), none =>
      match fs.writeFile b src dst with
      | some fs1 => (true, fs1)
      | none => (false, fs)
    | some Node.dir, some Node.dir =>
      if src = dst then (false, fs)
      else
        (fs.children src).foldl
          (fun acc nm => if acc.1 then copyTree fuel acc.2 (src ++ [nm]) (dst ++ [nm]) else acc)
          (true, fs)
    | some Node.dir, none =>
      if fs.node dst.dropLast != some Node.dir then (false, fs)
      else
        (fs.children src).foldl
          (fun acc nm => if acc.1 then copyTree fuel acc.2 (src ++ [nm]) (dst ++ [nm]) else acc)
          (true, fs.put dst Node.dir)
    | _, _ => (false, fs)

/-- The call `fs::copy(src, dst, recursive | overwrite_existing)`; `false` when it throws. -/
def copy (fs : FS) (src dst : Path) : Bool × FS :=
  match fs.status src with
  | Status.regular _ =>
    match fs.status dst with
    | Status.directory =>
      (match fs.copyFile src (pathJoin dst (filename src)) with
        | some fs1 => (true, fs1)
        | none => (false, fs))
    | Status.unknown => (false, fs)
    | _ =>
      (match fs.copyFile src dst with
        | some fs1 => (true, fs1)
        | none => (false, fs))
  | Status.directory =>
    if dst = [] then (false, fs)
    else copyTree (fs.entries.length + 1) fs (resolve src) (resolve dst)
  | _ => (false, fs)

/-- The call `fs::remove_all(p, ec)`: the node and everything below it go. -/
def removeAll (fs : FS) (p : Path) : FS :=
  if p = [] then fs
  else ⟨fs.entries.filter (fun e => !((resolve p).isPrefixOf e.1))⟩

end FS

/-! ## External collaborators -/

/-- The streaming interface of OpenSSL's SHA-256. -/
structure Sha256 where
  Ctx : Type
  init : Ctx
  update : Ctx → Str → Ctx
  final : Ctx → List Nat

/-- What the program takes from outside itself. -/
structure Env where
  /-- OpenSSL's `SHA256_Init`, `SHA256_Update`, `SHA256_Final`. -/
  sha : Sha256
  /-- The text `std::put_time` renders for a `time_t` under `"%Y%m%d_%H%M%S_%N"`. -/
  formatStamp : Int → Str
  /-- The value found in a local integer that was declared without an initialiser and that a
  failed extraction left untouched. -/
  indeterminate : Nat

/-! ## Errors -/

deriving instance DecidableEq for Except

/-- One constructor per `throw` site; `filesystemError` is the exception of the throwing
`std::filesystem` overloads. -/
inductive Error where
  | checksumOpenFailed
  | emptyPath
  | relativePath (path : Path)
  | existsFailed
  | noObjectsInPoint
  | emptyLocation
  | backupDirCheckFailed
  | backupDirCreateFailed
  | filesystemError
  | pathDoesNotExist (path : Path)
  | alreadyExists (path : Path)
  | notFound (path : Path)
  | nothingToBackUp
  | fileGone (path : Path)
  | pointDirCreateFailed
  | storeFailed (cause : Error)
  | cancelled
  | integrityViolated
  | targetDirCreateFailed
  | restoreCopyFailed
  | stateOpenForWriteFailed
  | stateOpenFailed
  | objectMissing (path : Path)
  deriving DecidableEq, Repr

/-! ## Checksum -/

/-- A hexadecimal digit. -/
def hexDigit (n : Nat) : Char := "0123456789abcdef".toList.getD n '0'

/-- One `unsigned char` written with `std::hex`, `setw(2)` and `setfill('0')`. -/
def hexByte (b : Nat) : Str := [hexDigit (b % 256 / 16), hexDigit (b % 16)]

/-- The read loop of `calculateFileChecksum`: blocks of 4096 bytes are fed to the hash until a
read yields nothing.  Every round consumes at least one byte, so `fuel` beyond the length of
the input is never used. -/
def hashBlocks (H : Sha256) : Nat → H.Ctx → Str → H.Ctx
  | 0, c, _ => c
  | fuel + 1, c, bs =>
    if (bs.take 4096).length > 0 then hashBlocks H fuel (H.update c (bs.take 4096)) (bs.drop 4096)
    else c

/-- The hexadecimal rendering of the 32 bytes of the digest. -/
def hexDigest (hash : List Nat) : Str :=
  (List.range 32).flatMap (fun i => hexByte (hash.getD i 0))

/-- The function `calculateFileChecksum`. -/
def calculateFileChecksum (E : Env) (fs : FS) (path : Path) : Except Error Str :=
  match fs.openRead path with
  | none => Except.error Error.checksumOpenFailed
  | some bytes =>
    Except.ok (hexDigest (E.sha.final (hashBlocks E.sha (bytes.length + 1) E.sha.init bytes)))

/-! ## BackupObject -/

/-- A tracked path with the digest frozen at construction. -/
structure BackupObject where
  path : Path
  storedChecksum : Str
  deriving DecidableEq, Repr

namespace BackupObject

/-- The method `BackupObject::calculateChecksum`. -/
def calculateChecksum (E : Env) (fs : FS) (o : BackupObject) : Except Error Str :=
  calculateFileChecksum E fs o.path

/-- The constructor `BackupObject::BackupObject`. -/
def construct (E : Env) (fs : FS) (path : Path) : Except Error BackupObject :=
  if path = [] then Except.error Error.emptyPath
  else if !isAbsolute path then Except.error (Error.relativePath path)
  else
    match calculateFileChecksum E fs path with
    | Except.error e => Except.error e
    | Except.ok sum => Except.ok ⟨path, sum⟩

/-- The method `BackupObject::exists`. -/
def «exists» (fs : FS) (o : BackupObject) : Except Error Bool :=
  match fs.status o.path with
  | Status.unknown => Except.error Error.existsFailed
  | Status.notFound => Except.ok false
  | _ => Except.ok true

/-- The method `BackupObject::verifyChecksum`. -/
def verifyChecksum (E : Env) (fs : FS) (o : BackupObject) : Except Error Bool :=
  match o.exists fs with
  | Except.error e => Except.error e
  | Except.ok false => Except.ok false
  | Except.ok true =>
    match o.calculateChecksum E fs with
    | Except.error e => Except.error e
    | Except.ok sum => Except.ok (sum == o.storedChecksum)

end BackupObject

/-! ## RestorePoint -/

/-- Wrap to the range of a signed 64-bit integer. -/
def wrap64 (x : Int) : Int := (x + 2 ^ 63) % 2 ^ 64 - 2 ^ 63

/-- The call `system_clock::to_time_t`: nanoseconds to whole seconds, truncating. -/
def toTimeT (t : Int) : Int := Int.tdiv t 1000000000

/-- The call `system_clock::from_time_t`. -/
def fromTimeT (s : Int) : Int := wrap64 (s * 1000000000)

/-- A snapshot: the captured objects, where they were stored, and when (nanoseconds since the
epoch, the resolution of `system_clock`). -/
structure RestorePoint where
  objects : List BackupObject
  location : Path
  timestamp : Int
  deriving DecidableEq, Repr

namespace RestorePoint

/-- The constructor `RestorePoint::RestorePoint`. -/
def construct (objects : List BackupObject) (location : Path) (timestamp : Int) :
    Except Error RestorePoint :=
  if objects = [] then Except.error Error.noObjectsInPoint
  else if location = [] then Except.error Error.emptyLocation
  else Except.ok ⟨objects, location, timestamp⟩

/-- The loop of `RestorePoint::verifyIntegrity`. -/
def verifyAll (E : Env) (fs : FS) : List BackupObject → Except Error Bool
  | [] => Except.ok true
  | o :: os =>
    match o.verifyChecksum E fs with
    | Except.error e => Except.error e
    | Except.ok false => Except.ok false
    | Except.ok true => verifyAll E fs os

/-- The method `RestorePoint::verifyIntegrity`. -/
def verifyIntegrity (E : Env) (fs : FS) (point : RestorePoint) : Except Error Bool :=
  verifyAll E fs point.objects

end RestorePoint

/-! ## Storage strategies -/

/-- The interface `IStorageStrategy`: `store` either returns or throws, and leaves the
filesystem as it is at that moment. -/
structure Strategy where
  store : List BackupObject → Path → FS → Except Error Unit × FS

/-- The loop of `SingleStorageStrategy::store`. -/
def singleStoreLoop (destination : Path) : List BackupObject → FS → Except Error Unit × FS
  | [], fs => (Except.ok (), fs)
  | o :: os, fs =>
    match o.exists fs with
    | Except.error e => (Except.error e, fs)
    | Except.ok false => (Except.error (Error.objectMissing o.path), fs)
    | Except.ok true =>
      match fs.copy o.path (pathJoin destination (filename o.path)) with
      | (false, fs1) => (Except.error Error.filesystemError, fs1)
      | (true, fs1) => singleStoreLoop destination os fs1

/-- The method `SingleStorageStrategy::store`. -/
def singleStore (objects : List BackupObject) (destination : Path) (fs : FS) :
    Except Error Unit × FS :=
  match fs.createDirectories destination with
  | Except.error _ => (Except.error Error.filesystemError, fs)
  | Except.ok (_, fs1) => singleStoreLoop destination objects fs1

/-- The class `SingleStorageStrategy`. -/
def SingleStorageStrategy : Strategy := ⟨singleStore⟩

/-! ## Text streams -/

/-- A decimal digit. -/
def digitChar (d : Nat) : Char := "0123456789".toList.getD d '0'

/-- The digits of `n`, most significant first, in front of `acc`. -/
def showNatAux : Nat → Nat → Str → Str
  | 0, _, acc => acc
  | fuel + 1, n, acc =>
    if n < 10 then digitChar n :: acc
    else showNatAux fuel (n / 10) (digitChar (n % 10) :: acc)

/-- The insertion `os << n` of an unsigned integer. -/
def showNat (n : Nat) : Str := showNatAux (n + 1) n []

/-- The insertion `os << i` of a signed integer. -/
def showInt (i : Int) : Str :=
  if i < 0 then '-' :: showNat i.natAbs else showNat i.toNat

/-- The value of a decimal digit, `none` for any other character. -/
def digitValue (c : Char) : Option Nat :=
  if c = '0' then some 0 else if c = '1' then some 1 else if c = '2' then some 2
  else if c = '3' then some 3 else if c = '4' then some 4 else if c = '5' then some 5
  else if c = '6' then some 6 else if c = '7' then some 7 else if c = '8' then some 8
  else if c = '9' then some 9 else none

/-- The function `isspace` of the classic locale. -/
def isSpace (c : Char) : Bool :=
  c = ' ' || c = '\t' || c = '\n' || c = '\r' || c = Char.ofNat 11 || c = Char.ofNat 12

/-- An input stream: the characters not yet extracted, `eofbit`, and `failbit` or `badbit`. -/
structure IStream where
  rest : Str
  eof : Bool
  fail : Bool
  deriving DecidableEq, Repr

/-- The leading run of decimal digits accumulated into `acc`, and what follows it. -/
def readDigits : Str → Nat → Nat × Str
  | [], acc => (acc, [])
  | c :: cs, acc =>
    match digitValue c with
    | some d => readDigits cs (acc * 10 + d)
    | none => (acc, c :: cs)

/-- Whether the text starts with a decimal digit. -/
def startsWithDigit (r : Str) : Bool :=
  match r with
  | [] => false
  | c :: _ => (digitValue c).isSome

namespace IStream

/-- The member `good()`. -/
def good (s : IStream) : Bool := !s.eof && !s.fail

/-- The sentry of a formatted extraction: it fails on a stream that is not good, and after
skipping white space when nothing is left. -/
def sentry (s : IStream) : Bool × IStream :=
  if !s.good then (false, { s with fail := true })
  else if s.rest.dropWhile isSpace = [] then (false, ⟨[], true, true⟩)
  else (true, { s with rest := s.rest.dropWhile isSpace })

/-- An optional sign, as `num_get` accepts it: whether it was `-`, and what follows. -/
def readSign (r : Str) : Bool × Str :=
  match r with
  | '-' :: cs => (true, cs)
  | '+' :: cs => (false, cs)
  | _ => (false, r)

/-- The extraction `is >> n` into a `size_t`.  The value is `none` when the sentry failed and
the variable was left as it was; without digits it is 0, beyond the range it is the largest
value, both with `failbit`; a minus sign negates modulo `2 ^ 64`. -/
def extractSizeT (s : IStream) : Option Nat × IStream :=
  match s.sentry with
  | (false, s1) => (none, s1)
  | (true, s1) =>
    match readSign s1.rest with
    | (negative, afterSign) =>
      match readDigits afterSign 0 with
      | (value, rest) =>
        if !startsWithDigit afterSign then (some 0, ⟨rest, rest == [], true⟩)
        else if value ≥ 2 ^ 64 then (some (2 ^ 64 - 1), ⟨rest, rest == [], true⟩)
        else
          (some (if negative then (2 ^ 64 - value) % 2 ^ 64 else value),
            ⟨rest, rest == [], false⟩)

/-- The extraction `is >> t` into a `time_t` (a signed 64-bit integer), with the same
conventions; beyond the range the value is the nearest bound. -/
def extractTimeT (s : IStream) : Option Int × IStream :=
  match s.sentry with
  | (false, s1) => (none, s1)
  | (true, s1) =>
    match readSign s1.rest with
    | (negative, afterSign) =>
      match readDigits afterSign 0 with
      | (value, rest) =>
        if !startsWithDigit afterSign then (some 0, ⟨rest, rest == [], true⟩)
        else if negative then
          if value > 2 ^ 63 then (some (-(2 ^ 63)), ⟨rest, rest == [], true⟩)
          else (some (-(value : Int)), ⟨rest, rest == [], false⟩)
        else
          if value ≥ 2 ^ 63 then (some (2 ^ 63 - 1), ⟨rest, rest == [], true⟩)
          else (some (value : Int), ⟨rest, rest == [], false⟩)

/-- The member `ignore()`: one character is extracted and dropped. -/
def ignore (s : IStream) : IStream :=
  if !s.good then { s with fail := true }
  else
    match s.rest with
    | [] => { s with eof := true }
    | _ :: cs => { s with rest := cs }

/-- The text up to the first newline, and what follows the newline when there is one. -/
def splitLine : Str → Str × Option Str
  | [] => ([], none)
  | c :: cs =>
    if c = '\n' then ([], some cs)
    else ((splitLine cs).1.cons c, (splitLine cs).2)

/-- The call `std::getline(is, str)` into a fresh string. -/
def getline (s : IStream) : Str × IStream :=
  if !s.good then ([], { s with fail := true })
  else
    match splitLine s.rest with
    | (line, some cs) => (line, { s with rest := cs })
    | (line, none) => (line, ⟨[], true, line == []⟩)

end IStream

/-- Opening `std::ofstream(p)`: the location that will hold the file, when it can be created
or truncated. -/
def FS.openWrite (fs : FS) (p : Path) : Option Key :=
  if p = [] || needsDir p || fs.node (resolve p).dropLast != some Node.dir then none
  else
    match fs.node (resolve p) with
    | none => some (resolve p)
    | some (Node.file _) => some (resolve p)
    | some _ => none

/-! ## BackupJob -/

/-- The value the progress sink receives: `steps` additions of `1.0f / count` to `0.0f`, or
the literal `1.0f`. -/
inductive Progress where
  | accumulated (steps count : Nat)
  | complete
  deriving DecidableEq, Repr

/-- The status text the progress sink receives. -/
inductive Message where
  | restoring (name : Str)
  | finished
  deriving DecidableEq, Repr

/-- One invocation of the progress sink `sink`. -/
structure Report where
  sink : Nat
  progress : Progress
  message : Message
  deriving DecidableEq, Repr

/-- The members of `BackupJob`.  The sink is known by a number; what it is given is recorded
as a `Report`. -/
structure BackupJob where
  objects : List BackupObject
  restorePoints : List RestorePoint
  storageStrategy : Strategy
  backupDirectory : Path
  progressCallback : Option Nat
  operationCancelled : Bool

/-- What an operation leaves behind: its result or exception, the job, the filesystem. -/
structure Outcome (α : Type) where
  result : Except Error α
  job : BackupJob
  fs : FS

namespace BackupJob

/-- The constructor `BackupJob::BackupJob`.  It gives `operationCancelled_` no value, so the
flag starts out as whatever `flag` the memory held. -/
def construct (strategy : Strategy) (backupDir : Path) (flag : Bool) (fs : FS) :
    Except Error BackupJob × FS :=
  match fs.status backupDir with
  | Status.unknown => (Except.error Error.backupDirCheckFailed, fs)
  | Status.notFound =>
    (match fs.createDirectories backupDir with
      | Except.ok (true, fs1) => (Except.ok ⟨[], [], strategy, backupDir, none, flag⟩, fs1)
      | _ => (Except.error Error.backupDirCreateFailed, fs))
  | _ => (Except.ok ⟨[], [], strategy, backupDir, none, flag⟩, fs)

/-- The method `BackupJob::addObject`. -/
def addObject (E : Env) (job : BackupJob) (fs : FS) (path : Path) : Outcome Unit :=
  match fs.status path with
  | Status.unknown => ⟨Except.error Error.filesystemError, job, fs⟩
  | Status.notFound => ⟨Except.error (Error.pathDoesNotExist path), job, fs⟩
  | _ =>
    match BackupObject.construct E fs path with
    | Except.error e => ⟨Except.error e, job, fs⟩
    | Except.ok newObject =>
      if job.objects.any (fun obj => pathEq obj.path path) then
        ⟨Except.error (Error.alreadyExists path), job, fs⟩
      else ⟨Except.ok (), { job with objects := job.objects ++ [newObject] }, fs⟩

/-- The method `BackupJob::removeObject`. -/
def removeObject (job : BackupJob) (fs : FS) (path : Path) : Outcome Unit :=
  let kept := job.objects.filter (fun obj => !pathEq obj.path path)
  if kept.length = job.objects.length then
    ⟨Except.error (Error.notFound path), { job with objects := kept }, fs⟩
  else ⟨Except.ok (), { job with objects := kept }, fs⟩

/-- The existence check of `createRestorePoint` over the copied registry. -/
def checkAllExist (fs : FS) : List BackupObject → Except Error Unit
  | [] => Except.ok ()
  | o :: os =>
    match o.exists fs with
    | Except.error e => Except.error e
    | Except.ok false => Except.error (Error.fileGone o.path)
    | Except.ok true => checkAllExist fs os

/-- The directory `createRestorePoint` derives from the clock reading `now`. -/
def restorePointPath (E : Env) (job : BackupJob) (now : Int) : Path :=
  pathJoin job.backupDirectory ("restore_point_".toList ++ E.formatStamp (toTimeT now))

/-- The method `BackupJob::createRestorePoint`, at the clock reading `now`. -/
def createRestorePoint (E : Env) (job : BackupJob) (fs : FS) (now : Int) :
    Outcome RestorePoint :=
  if job.objects = [] then ⟨Except.error Error.nothingToBackUp, job, fs⟩
  else
    match checkAllExist fs job.objects with
    | Except.error e => ⟨Except.error e, job, fs⟩
    | Except.ok () =>
      match fs.createDirectories (restorePointPath E job now) with
      | Except.ok (true, fs1) =>
        (match job.storageStrategy.store job.objects (restorePointPath E job now) fs1 with
          | (Except.error e, fs2) =>
            ⟨Except.error (Error.storeFailed e), job, fs2.removeAll (restorePointPath E job now)⟩
          | (Except.ok (), fs2) =>
            match RestorePoint.construct job.objects (restorePointPath E job now) now with
            | Except.error e => ⟨Except.error e, job, fs2⟩
            | Except.ok point =>
              ⟨Except.ok point, { job with restorePoints := job.restorePoints ++ [point] }, fs2⟩)
      | _ => ⟨Except.error Error.pointDirCreateFailed, job, fs⟩

/-- The method `BackupJob::reportProgress`: the reports made so far, and the new one when a
sink is installed. -/
def reportProgress (job : BackupJob) (progress : Progress) (message : Message)
    (reports : List Report) : List Report :=
  match job.progressCallback with
  | some sink => reports ++ [⟨sink, progress, message⟩]
  | none => reports

/-- What `restore` leaves behind, with the invocations of the progress sink it made. -/
structure RestoreOutcome where
  result : Except Error Unit
  job : BackupJob
  fs : FS
  reports : List Report

end BackupJob

/-- The calls of `cancelOperation()` that arrive while `restore` runs, from another thread
or from the progress sink.  `betweenSteps i`: a call once `i` objects have been processed and
before the flag is read for the next one.  `duringStep i`: a call after the flag has been read
for the object of index `i` and before the next read (while the sink runs or the file is being
copied). -/
structure CancelSchedule where
  betweenSteps : Nat → Bool
  duringStep : Nat → Bool

/-- No call of `cancelOperation()` arrives. -/
def CancelSchedule.never : CancelSchedule := ⟨fun _ => false, fun _ => false⟩

namespace BackupJob

/-- The loop of `BackupJob::restore` from its `index`-th round on. -/
def restoreLoop (point : RestorePoint) (targetDir : Path) (calls : CancelSchedule)
    (count : Nat) : List BackupObject → Nat → BackupJob → FS → List Report → RestoreOutcome
  | [], _, job, fs, reports =>
    ⟨Except.ok (), job, fs, job.reportProgress Progress.complete Message.finished reports⟩
  | o :: os, index, job, fs, reports =>
    if job.operationCancelled || calls.betweenSteps index then
      ⟨Except.error Error.cancelled, { job with operationCancelled := true }, fs, reports⟩
    else
      match fs.copyFile (pathJoin point.location (filename o.path))
          (pathJoin targetDir (filename o.path)) with
      | none =>
        ⟨Except.error Error.restoreCopyFailed,
          { job with operationCancelled := job.operationCancelled || calls.duringStep index }, fs,
          job.reportProgress (Progress.accumulated index count)
            (Message.restoring (filename o.path)) reports⟩
      | some fs1 =>
        restoreLoop point targetDir calls count os (index + 1)
          { job with operationCancelled := job.operationCancelled || calls.duringStep index } fs1
          (job.reportProgress (Progress.accumulated index count)
            (Message.restoring (filename o.path)) reports)

/-- The method `BackupJob::restore`. -/
def restore (E : Env) (job : BackupJob) (fs : FS) (point : RestorePoint) (targetDir : Path)
    (calls : CancelSchedule) : RestoreOutcome :=
  if job.operationCancelled then ⟨Except.error Error.cancelled, job, fs, []⟩
  else
    match point.verifyIntegrity E fs with
    | Except.error e => ⟨Except.error e, job, fs, []⟩
    | Except.ok false => ⟨Except.error Error.integrityViolated, job, fs, []⟩
    | Except.ok true =>
      match fs.status targetDir with
      | Status.unknown => ⟨Except.error Error.filesystemError, job, fs, []⟩
      | Status.notFound =>
        (match fs.createDirectories targetDir with
          | Except.error _ => ⟨Except.error Error.targetDirCreateFailed, job, fs, []⟩
          | Except.ok (_, fs1) =>
            restoreLoop point targetDir calls point.objects.length point.objects 0 job fs1 [])
      | _ => restoreLoop point targetDir calls point.objects.length point.objects 0 job fs []

/-- The method `BackupJob::verifyBackup`. -/
def verifyBackup (E : Env) (_job : BackupJob) (fs : FS) (point : RestorePoint) :
    Except Error Bool :=
  point.verifyIntegrity E fs

/-- The method `BackupJob::cancelOperation`. -/
def cancelOperation (job : BackupJob) : BackupJob := { job with operationCancelled := true }

/-- The method `BackupJob::setProgressCallback`; an empty `std::function` is `none`. -/
def setProgressCallback (job : BackupJob) (callback : Option Nat) : BackupJob :=
  { job with progressCallback := callback }

end BackupJob

/-! ## Persisted state -/

/-- The lines `serialize` and `saveState` write for a list of objects. -/
def pathLines (objects : List BackupObject) : Str :=
  objects.flatMap (fun obj => obj.path ++ ['\n'])

/-- The method `RestorePoint::serialize`. -/
def RestorePoint.serialize (point : RestorePoint) : Str :=
  point.location ++ ['\n'] ++ showInt (toTimeT point.timestamp) ++ ['\n']
    ++ showNat point.objects.length ++ ['\n'] ++ pathLines point.objects

/-- A loop that reads `count` lines and constructs a `BackupObject` from each, appending to
`acc`; on an exception it stops with what was appended so far. -/
def readObjects (E : Env) (fs : FS) :
    Nat → IStream → List BackupObject → Except Error Unit × List BackupObject × IStream
  | 0, s, acc => (Except.ok (), acc, s)
  | count + 1, s, acc =>
    match s.getline with
    | (pathStr, s1) =>
      match BackupObject.construct E fs pathStr with
      | Except.error e => (Except.error e, acc, s1)
      | Except.ok obj => readObjects E fs count s1 (acc ++ [obj])

/-- The function `RestorePoint::deserialize`. -/
def RestorePoint.deserialize (E : Env) (fs : FS) (s : IStream) :
    Except Error RestorePoint × IStream :=
  match s.getline with
  | (locationStr, s1) =>
    match s1.extractTimeT with
    | (timeT, s2) =>
      match s2.ignore.extractSizeT with
      | (objectCount, s4) =>
        match readObjects E fs (objectCount.getD (E.indeterminate % 2 ^ 64)) s4.ignore [] with
        | (Except.error e, _, s6) => (Except.error e, s6)
        | (Except.ok (), objects, s6) =>
          (RestorePoint.construct objects locationStr
            (fromTimeT (timeT.getD (wrap64 E.indeterminate))), s6)

namespace BackupJob

/-- The text `saveState` writes. -/
def stateText (job : BackupJob) : Str :=
  showNat job.objects.length ++ ['\n'] ++ pathLines job.objects
    ++ showNat job.restorePoints.length ++ ['\n'] ++ job.restorePoints.flatMap RestorePoint.serialize

/-- The method `BackupJob::saveState`. -/
def saveState (job : BackupJob) (fs : FS) (statePath : Path) : Outcome Unit :=
  match fs.openWrite statePath with
  | none => ⟨Except.error Error.stateOpenForWriteFailed, job, fs⟩
  | some k => ⟨Except.ok (), job, fs.put k (Node.file (stateText job))⟩

/-- The second loop of `loadState`: `count` restore points are deserialised and appended to
`acc`; on an exception it stops with what was appended so far. -/
def readPoints (E : Env) (fs : FS) :
    Nat → IStream → List RestorePoint → Except Error Unit × List RestorePoint
  | 0, _, acc => (Except.ok (), acc)
  | count + 1, s, acc =>
    match RestorePoint.deserialize E fs s with
    | (Except.error e, _) => (Except.error e, acc)
    | (Except.ok point, s1) => readPoints E fs count s1 (acc ++ [point])

/-- The method `BackupJob::loadState`. -/
def loadState (E : Env) (job : BackupJob) (fs : FS) (statePath : Path) : Outcome Unit :=
  match fs.openRead statePath with
  | none => ⟨Except.error Error.stateOpenFailed, job, fs⟩
  | some text =>
    match IStream.extractSizeT ⟨text, false, false⟩ with
    | (objectCount, s1) =>
      match readObjects E fs (objectCount.getD (E.indeterminate % 2 ^ 64)) s1.ignore [] with
      | (Except.error e, objects, _) =>
        ⟨Except.error e, { job with objects := objects, restorePoints := [] }, fs⟩
      | (Except.ok (), objects, s2) =>
        match s2.extractSizeT with
        | (pointCount, s3) =>
          match readPoints E fs (pointCount.getD (E.indeterminate % 2 ^ 64)) s3.ignore [] with
          | (Except.error e, points) =>
            ⟨Except.error e, { job with objects := objects, restorePoints := points }, fs⟩
          | (Except.ok (), points) =>
            ⟨Except.ok (), { job with objects := objects, restorePoints := points }, fs⟩

end BackupJob

/-! ## Sequences of operations -/

/-- A call on the job, or a change the outside world makes to the filesystem. -/
inductive Op where
  | addObject (path : Path)
  | removeObject (path : Path)
  | createRestorePoint (now : Int)
  | restore (point : RestorePoint) (targetDir : Path) (calls : CancelSchedule)
  | saveState (statePath : Path)
  | loadState (statePath : Path)
  | verifyBackup (point : RestorePoint)
  | cancelOperation
  | setProgressCallback (callback : Option Nat)
  | outside (fs : FS)

/-- A job and the filesystem it lives in. -/
structure Sys where
  job : BackupJob
  fs : FS

/-- One call, whether it returns or throws. -/
def step (E : Env) (s : Sys) : Op → Sys
  | Op.addObject path => ⟨(s.job.addObject E s.fs path).job, (s.job.addObject E s.fs path).fs⟩
  | Op.removeObject path => ⟨(s.job.removeObject s.fs path).job, (s.job.removeObject s.fs path).fs⟩
  | Op.createRestorePoint now =>
    ⟨(s.job.createRestorePoint E s.fs now).job, (s.job.createRestorePoint E s.fs now).fs⟩
  | Op.restore point targetDir calls =>
    ⟨(s.job.restore E s.fs point targetDir calls).job, (s.job.restore E s.fs point targetDir calls).fs⟩
  | Op.saveState statePath => ⟨(s.job.saveState s.fs statePath).job, (s.job.saveState s.fs statePath).fs⟩
  | Op.loadState statePath =>
    ⟨(s.job.loadState E s.fs statePath).job, (s.job.loadState E s.fs statePath).fs⟩
  | Op.verifyBackup _ => s
  | Op.cancelOperation => ⟨s.job.cancelOperation, s.fs⟩
  | Op.setProgressCallback callback => ⟨s.job.setProgressCallback callback, s.fs⟩
  | Op.outside fs => ⟨s.job, fs⟩

/-- A sequence of calls, in order. -/
def run (E : Env) (ops : List Op) (s : Sys) : Sys := ops.foldl (step E) s

/-- No two entries of the registry have the same path (`==` of `std::filesystem::path`). -/
def uniquePaths (objects : List BackupObject) : Prop :=
  objects.Pairwise (fun a b => pathEq a.path b.path = false)

/-- Every `loadState` of the sequence installs a registry without repeated paths. -/
def loadsUnique (E : Env) : List Op → Sys → Prop
  | [], _ => True
  | Op.loadState statePath :: ops, s =>
    uniquePaths (s.job.loadState E s.fs statePath).job.objects
      ∧ loadsUnique E ops (step E s (Op.loadState statePath))
  | op :: ops, s => loadsUnique E ops (step E s op)

/-- A well-formed filesystem: whatever exists sits in a chain of directories. -/
def FS.WF (fs : FS) : Prop :=
  ∀ k n, fs.node k = some n → ∀ q, q <+: k → q ≠ k → fs.node q = some Node.dir

/-! ## Predicates used in the statements -/

/-- The value of a run of decimal digits, continuing from `acc`. -/
def digitsVal (l : Str) (acc : Nat) : Nat :=
  l.foldl (fun a c => a * 10 + (digitValue c).getD 0) acc

/-- A tracked path that `loadState` can take back: it has no newline in it, it is absolute,
and its file can be opened for reading on this filesystem. -/
def Reloadable (fs : FS) (o : BackupObject) : Prop :=
  '\n' ∉ o.path ∧ isAbsolute o.path = true ∧ (fs.openRead o.path).isSome = true

instance (fs : FS) (o : BackupObject) : Decidable (Reloadable fs o) := by
  unfold Reloadable; infer_instance

/-- What the constructor and the machine types guarantee of a restore point: it has objects
and a location, its time point is a signed 64-bit count, its size fits `size_t`. -/
def RestorePoint.Valid (point : RestorePoint) : Prop :=
  point.objects ≠ [] ∧ point.location ≠ []
    ∧ -(2 ^ 63) ≤ point.timestamp ∧ point.timestamp < 2 ^ 63
    ∧ point.objects.length < 2 ^ 64

instance (point : RestorePoint) : Decidable point.Valid := by
  unfold RestorePoint.Valid; infer_instance

/-- What the machine types and the constructors guarantee of a job state. -/
def BackupJob.Valid (job : BackupJob) : Prop :=
  job.objects.length < 2 ^ 64 ∧ job.restorePoints.length < 2 ^ 64
    ∧ ∀ point ∈ job.restorePoints, point.Valid

instance (job : BackupJob) : Decidable job.Valid := by
  unfold BackupJob.Valid; infer_instance

/-- What a restore point looks like to the reader of a state file: its location, its time in
whole seconds, the paths of its objects. -/
def RestorePoint.summary (point : RestorePoint) : Path × Int × List Path :=
  (point.location, toTimeT point.timestamp, point.objects.map (fun o => o.path))

/-- A name a directory entry can have: not empty, no separator, not `.` or `..`. -/
def ProperName (nm : Str) : Prop := nm ≠ [] ∧ '/' ∉ nm ∧ nm ≠ ['.'] ∧ nm ≠ ['.', '.']

/-- The slot at a location is free or holds a regular file. -/
def FreeOrFile (fs : FS) (k : Key) : Prop :=
  fs.node k = none ∨ ∃ b, fs.node k = some (Node.file b)

/-- Nothing is at the path, or a regular file is: `copy_file` with `overwrite_existing` can
write there. -/
def FS.freeOrFile (fs : FS) (p : Path) : Bool :=
  match fs.status p with
  | Status.notFound => true
  | Status.regular _ => true
  | _ => false

/-- The filesystem `fs0` is `fs` once `restore` has made sure the target directory is there:
either it was a directory already, or it was missing and `create_directories` made it. -/
def TargetReady (fs : FS) (targetDir : Path) (fs0 : FS) : Prop :=
  (fs.status targetDir = Status.directory ∧ fs0 = fs)
    ∨ (fs.status targetDir = Status.notFound
        ∧ ∃ made, fs.createDirectories targetDir = Except.ok (made, fs0))

/-- A backend that changes nothing outside the destination directory, when that directory is
there and the objects are readable files outside it. -/
def Strategy.WritesBelow (S : Strategy) : Prop :=
  ∀ (objects : List BackupObject) (dst : Path) (fs : FS),
    fs.node (resolve dst) = some Node.dir →
    (∀ o ∈ objects, (fs.openRead o.path).isSome = true ∧ ¬ resolve dst <+: resolve o.path) →
    ∀ k, ¬ resolve dst <+: k → (S.store objects dst fs).2.node k = fs.node k

/-- A computable test of well-formedness over the entries. -/
def FS.wfCheck (fs : FS) : Bool :=
  fs.entries.all (fun e => e.1.inits.all (fun q => q == e.1 || fs.node q == some Node.dir))

/-- The digest `calculateFileChecksum` computes for a file that holds `bytes`: what the
constructor of a `BackupObject` freezes, and what `verifyChecksum` recomputes. -/
def contentDigest (E : Env) (bytes : Str) : Str :=
  hexDigest (E.sha.final (hashBlocks E.sha (bytes.length + 1) E.sha.init bytes))

/-! ## Fixtures for the concrete evaluations -/

namespace Fixture

/-- A stand-in for SHA-256: the digest is the first 32 bytes of the content. -/
def sha : Sha256 := ⟨Str, [], fun c b => c ++ b, fun c => c.map Char.toNat⟩

/-- The stand-in environment: the directory stamp is the decimal `time_t`. -/
def env : Env := ⟨sha, showInt, 0⟩

/-- The files `/tmp/a.txt` and `/tmp/b.txt`, and an empty directory `/bk`. -/
def disk : FS :=
  ⟨[(["tmp".toList], Node.dir), (["tmp".toList, "a.txt".toList], Node.file "A".toList),
    (["tmp".toList, "b.txt".toList], Node.file "B".toList), (["bk".toList], Node.dir)]⟩

/-- A job on `/bk` with the flat-copy backend and nothing registered. -/
def emptyJob : BackupJob := ⟨[], [], SingleStorageStrategy, "/bk".toList, none, false⟩

/-- The job after `addObject("/tmp/a.txt")` on `disk`. -/
def jobA : BackupJob := (emptyJob.addObject env disk "/tmp/a.txt".toList).job

/-- The job after `addObject("/tmp/a.txt")` and `addObject("/tmp/b.txt")` on `disk`. -/
def jobAB : BackupJob := (jobA.addObject env disk "/tmp/b.txt".toList).job

/-- The disk after `/tmp/a.txt` has been deleted. -/
def diskWithoutA : FS :=
  ⟨[(["tmp".toList], Node.dir), (["tmp".toList, "b.txt".toList], Node.file "B".toList),
    (["bk".toList], Node.dir)]⟩

/-- The disk after `/tmp/a.txt` has been rewritten. -/
def diskEditedA : FS := disk.put ["tmp".toList, "a.txt".toList] (Node.file "Z".toList)

/-- A disk where `/tmp/a.txt` and `/tmp/d/a.txt` are two files with the same name. -/
def diskTwoA : FS :=
  ⟨[(["tmp".toList], Node.dir), (["tmp".toList, "a.txt".toList], Node.file "A".toList),
    (["tmp".toList, "d".toList], Node.dir),
    (["tmp".toList, "d".toList, "a.txt".toList], Node.file "D".toList),
    (["bk".toList], Node.dir)]⟩

/-- The job after `addObject("/tmp/a.txt")` and `addObject("/tmp/d/a.txt")` on `diskTwoA`. -/
def jobTwoA : BackupJob :=
  ((emptyJob.addObject env diskTwoA "/tmp/a.txt".toList).job.addObject env diskTwoA
    "/tmp/d/a.txt".toList).job

/-- The disk `diskTwoA` after `/tmp/d/a.txt` has been replaced by a directory. -/
def diskTwoADir : FS := diskTwoA.put ["tmp".toList, "d".toList, "a.txt".toList] Node.dir

/-- The job `jobAB` after `createRestorePoint()` on `disk` at second 5. -/
def jobWithPoint : BackupJob := (jobAB.createRestorePoint env disk 5000000000).job

/-- The disk after that `createRestorePoint()`. -/
def diskWithPoint : FS := (jobAB.createRestorePoint env disk 5000000000).fs

/-- The disk with a state file `/s` that lists `/tmp/a.txt` twice. -/
def diskDup : FS := disk.put ["s".toList] (Node.file "2\n/tmp/a.txt\n/tmp/a.txt\n0\n".toList)

/-- The files `/tmp/a.txt`, `/tmp/b.txt`, `/tmp/c.txt`, `/tmp/d.txt` and the directory `/bk`. -/
def disk4 : FS :=
  ⟨[(["tmp".toList], Node.dir), (["tmp".toList, "a.txt".toList], Node.file "A".toList),
    (["tmp".toList, "b.txt".toList], Node.file "B".toList),
    (["tmp".toList, "c.txt".toList], Node.file "C".toList),
    (["tmp".toList, "d.txt".toList], Node.file "D".toList), (["bk".toList], Node.dir)]⟩

/-- The job that tracks `/tmp/a.txt`, `/tmp/b.txt` and `/tmp/c.txt`. -/
def job3 : BackupJob := (jobAB.addObject env disk4 "/tmp/c.txt".toList).job

/-- The job that tracks the four files of `disk4`. -/
def job4 : BackupJob := (job3.addObject env disk4 "/tmp/d.txt".toList).job

/-- The restore point `createRestorePoint()` makes of the four files at second 5. -/
def point4 : RestorePoint := ⟨job4.objects, "/bk/restore_point_5".toList, 5000000000⟩

/-- The job and the disk after that `createRestorePoint()`. -/
def saved4 : Outcome RestorePoint := job4.createRestorePoint env disk4 5000000000

/-- A call of `cancelOperation()` arrives once two objects have been processed, before the
flag is read for the third. -/
def cancelBeforeThird : CancelSchedule := ⟨fun i => i == 2, fun _ => false⟩

/-- A call of `cancelOperation()` arrives once two objects have been processed, while the
third is being handled: after the flag has been read for it (from the progress sink, say). -/
def cancelDuringThird : CancelSchedule := ⟨fun _ => false, fun i => i == 2⟩

/-- The disk `disk` with a third file `/tmp/x.txt`. -/
def diskX : FS := disk.put ["tmp".toList, "x.txt".toList] (Node.file "X".toList)

/-- The object `BackupObject("/tmp/a.txt")` constructed on `diskX`. -/
def objA : BackupObject := ⟨"/tmp/a.txt".toList, contentDigest env "A".toList⟩

/-- The object `BackupObject("/tmp/b.txt")` constructed on `diskX`. -/
def objB : BackupObject := ⟨"/tmp/b.txt".toList, contentDigest env "B".toList⟩

/-- The object `BackupObject("/tmp/x.txt")` constructed on `diskX`. -/
def objX : BackupObject := ⟨"/tmp/x.txt".toList, contentDigest env "X".toList⟩

/-- A restore point of `/tmp/a.txt`, `/tmp/b.txt` and `/tmp/x.txt`, in this order. -/
def pointABX : RestorePoint := ⟨[objA, objB, objX], "/bk/restore_point_5".toList, 5000000000⟩

/-- A restore point of `/tmp/x.txt` and `/tmp/b.txt`, in this order. -/
def pointXB : RestorePoint := ⟨[objX, objB], "/bk/restore_point_5".toList, 5000000000⟩

/-- The disk `diskX` after `/tmp/b.txt` has been rewritten and `/tmp/x.txt` has become
inaccessible: asking whether it exists reports an error. -/
def diskBX : FS :=
  (diskX.put ["tmp".toList, "b.txt".toList] (Node.file "Z".toList)).put
    ["tmp".toList, "x.txt".toList] Node.noaccess

end Fixture

/-! ## Theorems -/

open Fixture

/-- C3 (as amended): `addObject` on a path the registry already holds always throws and leaves
the job, hence the registry, and the filesystem exactly as they were; the exception is the
"object already exists" one whenever the path is absolute and still names a readable file, and
the "path does not exist" one when nothing is at the path any more. -/
theorem addObject_tracked_fails (E : Env) (job : BackupJob) (fs : FS) (p : Path)
    (h : job.objects.any (fun obj => pathEq obj.path p) = true) :
    (∃ e, (job.addObject E fs p).result = Except.error e)
      ∧ (job.addObject E fs p).job = job
      ∧ (job.addObject E fs p).fs = fs
      ∧ (isAbsolute p = true → fs.openRead p ≠ none →
          (job.addObject E fs p).result = Except.error (Error.alreadyExists p))
      ∧ (fs.status p = Status.notFound →
          (job.addObject E fs p).result = Except.error (Error.pathDoesNotExist p)) := by
  unfold BackupJob.addObject
  cases hst : fs.status p with
  | unknown => simp [FS.openRead, hst]
  | notFound => simp [FS.openRead, hst]
  | regular b =>
    simp only []
    cases hc : BackupObject.construct E fs p with
    | error e =>
      refine ⟨⟨e, rfl⟩, rfl, rfl, ?_, fun h0 => by cases h0⟩
      intro habs _
      have hp : p ≠ [] := by
        intro hp; simp [FS.status, hp] at hst
      simp [BackupObject.construct, hp, habs, calculateFileChecksum, FS.openRead, hst] at hc
    | ok o => simp [h]
  | directory =>
    simp only []
    cases hc : BackupObject.construct E fs p with
    | error e => simp [FS.openRead, hst]
    | ok o => simp [h]

/-- C3 (counterexample): `/tmp/a.txt` is in the registry and has been deleted from the disk;
`addObject("/tmp/a.txt")` throws "path does not exist", not "object already exists". -/
theorem addObject_tracked_other_error :
    jobA.objects.any (fun obj => pathEq obj.path "/tmp/a.txt".toList) = true
      ∧ (jobA.addObject env diskWithoutA "/tmp/a.txt".toList).result
          = Except.error (Error.pathDoesNotExist "/tmp/a.txt".toList)
      ∧ (jobA.addObject env diskWithoutA "/tmp/a.txt".toList).result
          ≠ Except.error (Error.alreadyExists "/tmp/a.txt".toList) := by
  decide

/-- C3 (witness): `/tmp/b.txt` is tracked and still on the disk; adding it again is rejected as
already existing. -/
theorem addObject_tracked_fails_witness :
    jobAB.objects.any (fun obj => pathEq obj.path "/tmp/b.txt".toList) = true
      ∧ (jobAB.addObject env disk "/tmp/b.txt".toList).result
          = Except.error (Error.alreadyExists "/tmp/b.txt".toList) :=
  ⟨by decide,
    (addObject_tracked_fails env jobAB disk "/tmp/b.txt".toList (by decide)).2.2.2.1
      (by decide) (by decide)⟩

theorem lookup_filter_none {β : Type} (k : Key) (keep : Key × β → Bool) :
    ∀ l : List (Key × β), (∀ e ∈ l, e.1 = k → keep e = false) → (l.filter keep).lookup k = none
  | [], _ => rfl
  | (q, n) :: l, h => by
    have ih := lookup_filter_none k keep l (fun e he => h e (List.mem_cons_of_mem _ he))
    by_cases hk : keep (q, n) = true
    · have hq : ¬ q = k := fun hq => by
        have := h (q, n) (List.mem_cons_self _ _) hq
        rw [this] at hk; exact Bool.noConfusion hk
      have hb : (k == q) = false := by
        simp only [beq_eq_false_iff_ne]; exact fun h => hq h.symm
      rw [List.filter_cons_of_pos hk, List.lookup_cons, hb]; exact ih
    · rw [List.filter_cons_of_neg hk]; exact ih

theorem node_removeAll_below (fs : FS) (p : Path) (hp : p ≠ []) (hr : resolve p ≠ [])
    (k : Key) (hk : resolve p <+: k) : (fs.removeAll p).node k = none := by
  have hk0 : k ≠ [] := by
    intro h; subst h; exact hr (List.prefix_nil.mp hk)
  unfold FS.removeAll FS.node
  rw [if_neg hp, if_neg hk0]
  apply lookup_filter_none
  intro e _ he
  subst he
  simp [List.isPrefixOf_iff_prefix, hk]

/-- C10 (as amended): for an absolute path of a readable file that the registry does not hold
yet, `addObject` returns, appends exactly one entry for that path, leaves the filesystem alone,
and `verifyChecksum()` of the new object on the same filesystem is true. -/
theorem addObject_new_succeeds (E : Env) (job : BackupJob) (fs : FS) (p : Path) (b : Str)
    (habs : isAbsolute p = true) (hread : fs.openRead p = some b)
    (hnew : job.objects.any (fun obj => pathEq obj.path p) = false) :
    ∃ obj : BackupObject, obj.path = p
      ∧ (job.addObject E fs p).result = Except.ok ()
      ∧ (job.addObject E fs p).job.objects = job.objects ++ [obj]
      ∧ (job.addObject E fs p).fs = fs
      ∧ obj.verifyChecksum E fs = Except.ok true := by
  have hst : fs.status p = Status.regular b := by
    unfold FS.openRead at hread
    split at hread
    · next b' h => rw [h]; cases hread; rfl
    · cases hread
  have hp : p ≠ [] := by
    intro hp; simp [FS.status, hp] at hst
  refine ⟨⟨p, hexDigest (E.sha.final (hashBlocks E.sha (b.length + 1) E.sha.init b))⟩, rfl, ?_⟩
  simp [BackupJob.addObject, hst, BackupObject.construct, hp, habs, calculateFileChecksum,
    hread, hnew, BackupObject.verifyChecksum, BackupObject.exists,
    BackupObject.calculateChecksum]

/-- C10 (witness): `/tmp/b.txt` is added to the job that tracks `/tmp/a.txt`. -/
theorem addObject_new_succeeds_witness :
    ∃ obj : BackupObject, obj.path = "/tmp/b.txt".toList
      ∧ (jobA.addObject env disk "/tmp/b.txt".toList).result = Except.ok ()
      ∧ (jobA.addObject env disk "/tmp/b.txt".toList).job.objects = jobA.objects ++ [obj]
      ∧ (jobA.addObject env disk "/tmp/b.txt".toList).fs = disk
      ∧ obj.verifyChecksum env disk = Except.ok true :=
  addObject_new_succeeds env jobA disk "/tmp/b.txt".toList "B".toList (by decide) (by decide)
    (by decide)

/-- C10 (counterexample): `/tmp/a.txt` is absolute, exists and is readable, yet
`addObject("/tmp/a.txt")` throws on a job that already tracks it, and adds nothing. -/
theorem addObject_readable_but_tracked :
    isAbsolute "/tmp/a.txt".toList = true
      ∧ disk.openRead "/tmp/a.txt".toList = some "A".toList
      ∧ (jobA.addObject env disk "/tmp/a.txt".toList).result
          = Except.error (Error.alreadyExists "/tmp/a.txt".toList)
      ∧ (jobA.addObject env disk "/tmp/a.txt".toList).job.objects = jobA.objects := by
  decide

theorem createDirectories_ok_ne (fs : FS) (p : Path) (r : Bool × FS)
    (h : fs.createDirectories p = Except.ok r) : p ≠ [] := by
  intro hp
  simp [FS.createDirectories, hp] at h

theorem createRestorePoint_ok_inv (E : Env) (job : BackupJob) (fs : FS) (now : Int)
    (point : RestorePoint)
    (h : (job.createRestorePoint E fs now).result = Except.ok point) :
    ∃ fs1 fs2, job.objects ≠ []
      ∧ BackupJob.checkAllExist fs job.objects = Except.ok ()
      ∧ fs.createDirectories (job.restorePointPath E now) = Except.ok (true, fs1)
      ∧ job.storageStrategy.store job.objects (job.restorePointPath E now) fs1 = (Except.ok (), fs2)
      ∧ point = ⟨job.objects, job.restorePointPath E now, now⟩
      ∧ (job.createRestorePoint E fs now).job
          = { job with restorePoints := job.restorePoints ++ [point] }
      ∧ (job.createRestorePoint E fs now).fs = fs2 := by
  by_cases hobj : job.objects = []
  · simp [BackupJob.createRestorePoint, hobj] at h
  cases hchk : BackupJob.checkAllExist fs job.objects with
  | error e => simp [BackupJob.createRestorePoint, hobj, hchk] at h
  | ok u =>
    cases hcd : fs.createDirectories (job.restorePointPath E now) with
    | error e => simp [BackupJob.createRestorePoint, hobj, hchk, hcd] at h
    | ok r =>
      obtain ⟨made, fs1⟩ := r
      cases made with
      | false => simp [BackupJob.createRestorePoint, hobj, hchk, hcd] at h
      | true =>
        cases hst : job.storageStrategy.store job.objects (job.restorePointPath E now) fs1 with
        | mk res fs2 =>
          have hloc := createDirectories_ok_ne _ _ _ hcd
          cases res with
          | error e => simp [BackupJob.createRestorePoint, hobj, hchk, hcd, hst] at h
          | ok u' =>
            simp [BackupJob.createRestorePoint, hobj, hchk, hcd, hst, RestorePoint.construct,
              hloc] at h ⊢
            exact ⟨h.symm, by rw [h]⟩

/-- C6: when `createRestorePoint` returns a restore point, its objects are the registry in
registry order, the history is the old history with this one point appended, and the registry
is unchanged. -/
theorem createRestorePoint_post (E : Env) (job : BackupJob) (fs : FS) (now : Int)
    (point : RestorePoint)
    (h : (job.createRestorePoint E fs now).result = Except.ok point) :
    point.objects = job.objects
      ∧ (job.createRestorePoint E fs now).job.restorePoints = job.restorePoints ++ [point]
      ∧ (job.createRestorePoint E fs now).job.objects = job.objects := by
  obtain ⟨fs1, fs2, _, _, _, _, hp, hjob, _⟩ := createRestorePoint_ok_inv E job fs now point h
  rw [hjob]
  subst hp
  exact ⟨rfl, rfl, rfl⟩

/-- C6 (witness): a restore point of `/tmp/a.txt` and `/tmp/b.txt` at second 5. -/
theorem createRestorePoint_post_witness :
    (jobAB.createRestorePoint env disk 5000000000).result
        = Except.ok ⟨jobAB.objects, "/bk/restore_point_5".toList, 5000000000⟩
      ∧ (jobAB.createRestorePoint env disk 5000000000).job.restorePoints
        = jobAB.restorePoints ++ [⟨jobAB.objects, "/bk/restore_point_5".toList, 5000000000⟩] :=
  ⟨by decide, (createRestorePoint_post env jobAB disk 5000000000 _ (by decide)).2.1⟩

theorem createDirectories_made (fs : FS) (p : Path) (fs1 : FS)
    (h : fs.createDirectories p = Except.ok (true, fs1)) :
    p ≠ [] ∧ fs.node (resolve p) = none ∧ fs.ancestorsOk (resolve p) = true
      ∧ fs1 = fs.addDirs (resolve p).inits := by
  have hp := createDirectories_ok_ne _ _ _ h
  unfold FS.createDirectories at h
  rw [if_neg hp] at h
  split at h
  · cases h
  · cases h
  · next hn =>
    split at h
    · next ha => cases h; exact ⟨hp, hn, ha, rfl⟩
    · cases h

theorem resolve_ne_nil_of_node_none (fs : FS) (k : Key) (h : fs.node k = none) : k ≠ [] := by
  intro hk; subst hk; simp [FS.node] at h

theorem checkAllExist_error (fs : FS) (e : Error) :
    ∀ l : List BackupObject, BackupJob.checkAllExist fs l = Except.error e →
      e = Error.existsFailed ∨ ∃ p, e = Error.fileGone p
  | [], h => by simp [BackupJob.checkAllExist] at h
  | o :: os, h => by
    unfold BackupJob.checkAllExist at h
    split at h
    · next e' he =>
      cases h
      unfold BackupObject.exists at he
      split at he
      · cases he; exact Or.inl rfl
      · cases he
      · cases he
    · cases h; exact Or.inr ⟨_, rfl⟩
    · exact checkAllExist_error fs e os h

/-- C5: when `createRestorePoint` throws, the job (registry and history included) is unchanged;
on an empty registry the filesystem is untouched; when `store` throws `cause` the exception is
`storeFailed cause`, the filesystem is what `store` left minus the restore-point directory, and
nothing remains at or below that directory. -/
theorem createRestorePoint_failure_atomic (E : Env) (job : BackupJob) (fs : FS) (now : Int)
    (e : Error) (h : (job.createRestorePoint E fs now).result = Except.error e) :
    (job.createRestorePoint E fs now).job = job
      ∧ (job.objects = [] → e = Error.nothingToBackUp ∧ (job.createRestorePoint E fs now).fs = fs)
      ∧ (∀ fs1 cause fs2, job.objects ≠ [] →
          BackupJob.checkAllExist fs job.objects = Except.ok () →
          fs.createDirectories (job.restorePointPath E now) = Except.ok (true, fs1) →
          job.storageStrategy.store job.objects (job.restorePointPath E now) fs1
            = (Except.error cause, fs2) →
          e = Error.storeFailed cause
            ∧ (job.createRestorePoint E fs now).fs = fs2.removeAll (job.restorePointPath E now))
      ∧ (∀ cause, e = Error.storeFailed cause →
          ∀ k, resolve (job.restorePointPath E now) <+: k →
            (job.createRestorePoint E fs now).fs.node k = none) := by
  by_cases hobj : job.objects = []
  · simp [BackupJob.createRestorePoint, hobj] at h ⊢
    subst h
    simp
  cases hchk : BackupJob.checkAllExist fs job.objects with
  | error e' =>
    have hkind := checkAllExist_error fs e' _ hchk
    simp [BackupJob.createRestorePoint, hobj, hchk] at h ⊢
    subst h
    intro cause hc
    rcases hkind with hk | ⟨p, hk⟩ <;> rw [hk] at hc <;> cases hc
  | ok u =>
    cases hcd : fs.createDirectories (job.restorePointPath E now) with
    | error e' =>
      simp [BackupJob.createRestorePoint, hobj, hchk, hcd] at h ⊢
      subst h; simp
    | ok r =>
      obtain ⟨made, fs1⟩ := r
      cases made with
      | false =>
        simp [BackupJob.createRestorePoint, hobj, hchk, hcd] at h ⊢
        subst h; simp
      | true =>
        cases hst : job.storageStrategy.store job.objects (job.restorePointPath E now) fs1 with
        | mk res fs2 =>
          obtain ⟨hloc, hnone, _, _⟩ := createDirectories_made _ _ _ hcd
          cases res with
          | error cause =>
            simp [BackupJob.createRestorePoint, hobj, hchk, hcd, hst] at h ⊢
            subst h
            refine ⟨?_, ?_⟩
            · intro fs1' cause' fs2' h1 h2
              subst h1
              rw [hst] at h2
              cases h2
              exact ⟨rfl, rfl⟩
            · intro _ _ k hk
              exact node_removeAll_below _ _ hloc (resolve_ne_nil_of_node_none _ _ hnone) k hk
          | ok u' =>
            simp [BackupJob.createRestorePoint, hobj, hchk, hcd, hst, RestorePoint.construct,
              hloc] at h

/-- C5 (witness): the second tracked `a.txt` has become a directory, so the flat copy fails on it;
the job is unchanged and the restore-point directory is gone. -/
theorem createRestorePoint_failure_atomic_witness :
    (jobTwoA.createRestorePoint env diskTwoADir 5000000000).result
        = Except.error (Error.storeFailed Error.filesystemError)
      ∧ (jobTwoA.createRestorePoint env diskTwoADir 5000000000).job = jobTwoA
      ∧ (jobTwoA.createRestorePoint env diskTwoADir 5000000000).fs.node
          ["bk".toList, "restore_point_5".toList] = none :=
  ⟨by decide,
    (createRestorePoint_failure_atomic env jobTwoA diskTwoADir 5000000000
      (Error.storeFailed Error.filesystemError) (by decide)).1,
    (createRestorePoint_failure_atomic env jobTwoA diskTwoADir 5000000000
      (Error.storeFailed Error.filesystemError) (by decide)).2.2.2
      _ rfl _ (by decide)⟩

theorem step_keeps_cancelled (E : Env) (s : Sys) (op : Op)
    (h : s.job.operationCancelled = true) : (step E s op).job.operationCancelled = true := by
  cases op with
  | addObject path =>
    simp only [step, BackupJob.addObject]
    repeat' split
    all_goals simp [h]
  | removeObject path =>
    simp only [step, BackupJob.removeObject]
    split <;> simp [h]
  | createRestorePoint now =>
    simp only [step, BackupJob.createRestorePoint]
    repeat' split
    all_goals simp [h]
  | restore point targetDir calls => simp [step, BackupJob.restore, h]
  | saveState statePath =>
    simp only [step, BackupJob.saveState]
    split <;> simp [h]
  | loadState statePath =>
    simp only [step, BackupJob.loadState]
    repeat' split
    all_goals simp [h]
  | verifyBackup point => exact h
  | cancelOperation => simp [step, BackupJob.cancelOperation]
  | setProgressCallback callback => simp [step, BackupJob.setProgressCallback, h]
  | outside fs => simp [step, h]

theorem run_keeps_cancelled (E : Env) :
    ∀ (ops : List Op) (s : Sys), s.job.operationCancelled = true →
      (run E ops s).job.operationCancelled = true
  | [], _, h => h
  | op :: ops, s, h => run_keeps_cancelled E ops (step E s op) (step_keeps_cancelled E s op h)

/-- C9: after `cancelOperation()`, whatever calls on the job and changes of the filesystem
follow, the flag is still set (no operation clears it) and every
`restore` throws the cancellation error at once: the filesystem is as it was and the progress
sink has not been invoked, whatever the restore point, the target and its files are. -/
theorem cancelled_restore_fails_first (E : Env) (job : BackupJob) (fs : FS) (ops : List Op)
    (point : RestorePoint) (targetDir : Path) (calls : CancelSchedule) :
    (run E ops ⟨job.cancelOperation, fs⟩).job.operationCancelled = true
      ∧ (run E ops ⟨job.cancelOperation, fs⟩).job.restore E (run E ops ⟨job.cancelOperation, fs⟩).fs
          point targetDir calls
        = ⟨Except.error Error.cancelled, (run E ops ⟨job.cancelOperation, fs⟩).job,
            (run E ops ⟨job.cancelOperation, fs⟩).fs, []⟩ := by
  have h := run_keeps_cancelled E ops ⟨job.cancelOperation, fs⟩ rfl
  exact ⟨h, by simp [BackupJob.restore, h]⟩

theorem restoreLoop_objects (point : RestorePoint) (targetDir : Path) (calls : CancelSchedule)
    (count : Nat) :
    ∀ (os : List BackupObject) (index : Nat) (job : BackupJob) (fs : FS) (reports : List Report),
      (BackupJob.restoreLoop point targetDir calls count os index job fs reports).job.objects
        = job.objects
  | [], _, _, _, _ => rfl
  | o :: os, index, job, fs, reports => by
    unfold BackupJob.restoreLoop
    split
    · rfl
    · split
      · rfl
      · rw [restoreLoop_objects point targetDir calls count os]

theorem restore_objects (E : Env) (job : BackupJob) (fs : FS) (point : RestorePoint)
    (targetDir : Path) (calls : CancelSchedule) :
    (job.restore E fs point targetDir calls).job.objects = job.objects := by
  unfold BackupJob.restore
  repeat' split
  all_goals first | rfl | exact restoreLoop_objects _ _ _ _ _ _ _ _ _

theorem createRestorePoint_objects (E : Env) (job : BackupJob) (fs : FS) (now : Int) :
    (job.createRestorePoint E fs now).job.objects = job.objects := by
  unfold BackupJob.createRestorePoint
  repeat' split
  all_goals rfl

theorem addObject_unique (E : Env) (job : BackupJob) (fs : FS) (p : Path)
    (h : uniquePaths job.objects) : uniquePaths (job.addObject E fs p).job.objects := by
  unfold BackupJob.addObject
  split
  · exact h
  · exact h
  · split
    · exact h
    · next newObject hc =>
      split
      · exact h
      · next hany =>
        have hpath : newObject.path = p := by
          unfold BackupObject.construct at hc
          split at hc
          · cases hc
          · split at hc
            · cases hc
            · split at hc
              · cases hc
              · cases hc; rfl
        simp only [uniquePaths] at h ⊢
        rw [List.pairwise_append]
        refine ⟨h, List.pairwise_singleton _ _, ?_⟩
        intro a ha b hb
        rw [List.mem_singleton] at hb
        subst hb
        rw [hpath]
        simp only [List.any_eq_true, not_exists, not_and, Bool.not_eq_true] at hany
        exact hany a ha

theorem removeObject_unique (job : BackupJob) (fs : FS) (p : Path)
    (h : uniquePaths job.objects) : uniquePaths (job.removeObject fs p).job.objects := by
  unfold BackupJob.removeObject
  simp only
  split <;> exact List.Pairwise.filter _ h

theorem step_unique (E : Env) (s : Sys) (op : Op) (h : uniquePaths s.job.objects)
    (hload : ∀ statePath, op = Op.loadState statePath →
      uniquePaths (s.job.loadState E s.fs statePath).job.objects) :
    uniquePaths (step E s op).job.objects := by
  cases op with
  | addObject path => exact addObject_unique E s.job s.fs path h
  | removeObject path => exact removeObject_unique s.job s.fs path h
  | createRestorePoint now =>
    simp only [step]; rw [createRestorePoint_objects]; exact h
  | restore point targetDir calls =>
    simp only [step]; rw [restore_objects]; exact h
  | saveState statePath =>
    simp only [step, BackupJob.saveState]
    split <;> exact h
  | loadState statePath => exact hload statePath rfl
  | verifyBackup point => exact h
  | cancelOperation => exact h
  | setProgressCallback callback => exact h
  | outside fs => exact h

theorem run_unique (E : Env) :
    ∀ (ops : List Op) (s : Sys), uniquePaths s.job.objects → loadsUnique E ops s →
      uniquePaths (run E ops s).job.objects
  | [], _, h, _ => h
  | op :: ops, s, h, hl => by
    have hstep : uniquePaths (step E s op).job.objects := by
      apply step_unique E s op h
      intro statePath hop
      subst hop
      exact hl.1
    have hrest : loadsUnique E ops (step E s op) := by
      cases op <;> first | exact hl | exact hl.2
    exact run_unique E ops (step E s op) hstep hrest

theorem construct_objects (strategy : Strategy) (backupDir : Path) (flag : Bool) (fs fs1 : FS)
    (job : BackupJob)
    (h : BackupJob.construct strategy backupDir flag fs = (Except.ok job, fs1)) :
    job.objects = [] := by
  unfold BackupJob.construct at h
  split at h
  · cases h
  · split at h
    · cases h; rfl
    · cases h
  · cases h; rfl

/-- Registry uniqueness apart from `loadState`: from a freshly constructed job, after any
sequence of `addObject`, `removeObject`, `createRestorePoint`, `restore`, `saveState`,
`loadState`, `cancelOperation`, `setProgressCallback` and changes of the filesystem from outside,
returning or throwing, no two registry entries have the same path, provided every `loadState` of
the sequence installed a registry without repeated paths.  Every operation but `loadState`
keeps the registry free of repeated paths. -/
theorem registry_unique_invariant (E : Env) (strategy : Strategy) (backupDir : Path)
    (flag : Bool) (fs0 fs1 : FS) (job : BackupJob)
    (hfresh : BackupJob.construct strategy backupDir flag fs0 = (Except.ok job, fs1))
    (ops : List Op) (hload : loadsUnique E ops ⟨job, fs1⟩) :
    uniquePaths (run E ops ⟨job, fs1⟩).job.objects := by
  apply run_unique E ops ⟨job, fs1⟩ _ hload
  rw [show (Sys.mk job fs1).job.objects = [] from construct_objects _ _ _ _ _ _ hfresh]
  exact List.Pairwise.nil

/-- C4 (failing input): a freshly constructed job loads a state file that lists `/tmp/a.txt`
twice; `loadState` appends one object per listed line without the comparison `addObject` makes,
and the job ends up with two registry entries for that path. -/
theorem loadState_duplicates :
    BackupJob.construct SingleStorageStrategy "/bk".toList false diskDup
        = (Except.ok emptyJob, diskDup)
      ∧ (run env [Op.loadState "/s".toList] ⟨emptyJob, diskDup⟩).job.objects.map (fun o => o.path)
          = ["/tmp/a.txt".toList, "/tmp/a.txt".toList]
      ∧ ¬ uniquePaths (run env [Op.loadState "/s".toList] ⟨emptyJob, diskDup⟩).job.objects := by
  refine ⟨rfl, by decide, ?_⟩
  unfold uniquePaths
  decide

/-- An instance: additions (one of them a rejected duplicate), a save, a removal and a load
of the saved file keep the registry free of repeated paths. -/
theorem registry_unique_invariant_witness :
    uniquePaths (run env
      [Op.addObject "/tmp/a.txt".toList, Op.addObject "/tmp//a.txt".toList,
        Op.addObject "/tmp/b.txt".toList, Op.saveState "/s".toList,
        Op.removeObject "/tmp/a.txt".toList, Op.loadState "/s".toList]
      ⟨emptyJob, disk⟩).job.objects :=
  registry_unique_invariant env SingleStorageStrategy "/bk".toList false disk disk emptyJob rfl _
    (by
      simp only [loadsUnique, and_true]
      unfold uniquePaths
      decide)

theorem digitValue_digitChar (d : Nat) (h : d < 10) : digitValue (digitChar d) = some d := by
  interval_cases d <;> rfl

theorem digit_not_special (c : Char) (h : (digitValue c).isSome = true) :
    isSpace c = false ∧ c ≠ '-' ∧ c ≠ '+' ∧ c ≠ '\n' := by
  unfold digitValue at h
  split_ifs at h with h0 h1 h2 h3 h4 h5 h6 h7 h8 h9
  · subst h0; decide
  · subst h1; decide
  · subst h2; decide
  · subst h3; decide
  · subst h4; decide
  · subst h5; decide
  · subst h6; decide
  · subst h7; decide
  · subst h8; decide
  · subst h9; decide
  · cases h

theorem readDigits_run (r : Str) (hr : startsWithDigit r = false) :
    ∀ (l : Str) (acc : Nat), (∀ c ∈ l, (digitValue c).isSome = true) →
      readDigits (l ++ r) acc = (digitsVal l acc, r)
  | [], acc, _ => by
    cases r with
    | nil => rfl
    | cons c cs =>
      have hnone : digitValue c = none := by
        cases hd : digitValue c with
        | none => rfl
        | some d => simp [startsWithDigit, hd] at hr
      simp [readDigits, hnone, digitsVal]
  | c :: l, acc, h => by
    obtain ⟨d, hd⟩ := Option.isSome_iff_exists.mp (h c (List.mem_cons_self _ _))
    have ih := readDigits_run r hr l (acc * 10 + d) (fun x hx => h x (List.mem_cons_of_mem _ hx))
    simp only [List.cons_append, readDigits, hd, digitsVal, List.foldl_cons, Option.getD_some]
    exact ih

theorem showNatAux_spec :
    ∀ (fuel n : Nat) (acc : Str), n < fuel →
      ∃ l : Str, showNatAux fuel n acc = l ++ acc ∧ l ≠ []
        ∧ (∀ c ∈ l, (digitValue c).isSome = true)
        ∧ ∀ a, digitsVal l a = a * 10 ^ l.length + n
  | 0, _, _, h => absurd h (Nat.not_lt_zero _)
  | fuel + 1, n, acc, h => by
    unfold showNatAux
    by_cases hn : n < 10
    · rw [if_pos hn]
      refine ⟨[digitChar n], rfl, by simp, ?_, ?_⟩
      · intro c hc
        rw [List.mem_singleton] at hc
        rw [hc, digitValue_digitChar n hn]; rfl
      · intro a
        simp [digitsVal, digitValue_digitChar n hn]
    · rw [if_neg hn]
      have hlt : n / 10 < fuel := by omega
      obtain ⟨l, hl, hne, hdig, hval⟩ :=
        showNatAux_spec fuel (n / 10) (digitChar (n % 10) :: acc) hlt
      have hmod : n % 10 < 10 := Nat.mod_lt _ (by decide)
      refine ⟨l ++ [digitChar (n % 10)], by rw [hl]; simp, by simp, ?_, ?_⟩
      · intro c hc
        rw [List.mem_append, List.mem_singleton] at hc
        rcases hc with hc | hc
        · exact hdig c hc
        · rw [hc, digitValue_digitChar _ hmod]; rfl
      · intro a
        have := hval a
        simp only [digitsVal, List.foldl_append, List.foldl_cons, List.foldl_nil,
          List.length_append, List.length_singleton] at this ⊢
        rw [this, digitValue_digitChar _ hmod, Option.getD_some, pow_succ, ← Nat.mul_assoc]
        generalize a * 10 ^ l.length = x
        omega

theorem showNat_spec (n : Nat) :
    ∃ (c : Char) (l : Str), showNat n = c :: l
      ∧ (∀ x ∈ c :: l, (digitValue x).isSome = true)
      ∧ digitsVal (c :: l) 0 = n := by
  obtain ⟨l, hl, hne, hdig, hval⟩ := showNatAux_spec (n + 1) n [] (Nat.lt_succ_self n)
  rw [List.append_nil] at hl
  cases l with
  | nil => exact absurd rfl hne
  | cons c l => exact ⟨c, l, hl, hdig, by simpa using hval 0⟩

theorem extractSizeT_showNat (n : Nat) (hn : n < 2 ^ 64) (r : Str) :
    IStream.extractSizeT ⟨showNat n ++ '\n' :: r, false, false⟩
      = (some n, ⟨'\n' :: r, false, false⟩) := by
  obtain ⟨c, l, hl, hdig, hval⟩ := showNat_spec n
  have hc := hdig c (List.mem_cons_self _ _)
  obtain ⟨hsp, hminus, hplus, _⟩ := digit_not_special c hc
  have hrun := readDigits_run ('\n' :: r) rfl (c :: l) 0 hdig
  rw [hval] at hrun
  have hsign : IStream.readSign (c :: (l ++ '\n' :: r)) = (false, c :: (l ++ '\n' :: r)) := by
    unfold IStream.readSign
    split
    · next h => cases h; exact absurd rfl hminus
    · next h => cases h; exact absurd rfl hplus
    · rfl
  have hnot : ¬ (2 ^ 64 ≤ n) := by omega
  simp only [List.cons_append] at hrun
  simp [IStream.extractSizeT, IStream.sentry, IStream.good, hl, List.dropWhile, hsp, hsign,
    startsWithDigit, hc, hrun, hnot]
  omega

theorem extractTimeT_showInt (i : Int) (hlo : -(2 ^ 63) ≤ i) (hhi : i < 2 ^ 63) (r : Str) :
    IStream.extractTimeT ⟨showInt i ++ '\n' :: r, false, false⟩
      = (some i, ⟨'\n' :: r, false, false⟩) := by
  by_cases hneg : i < 0
  · obtain ⟨c, l, hl, hdig, hval⟩ := showNat_spec i.natAbs
    have hc := hdig c (List.mem_cons_self _ _)
    have hrun := readDigits_run ('\n' :: r) rfl (c :: l) 0 hdig
    rw [hval] at hrun
    simp only [List.cons_append] at hrun
    have hle : ¬ (2 ^ 63 < i.natAbs) := by omega
    have hback : -(i.natAbs : Int) = i := by omega
    simp [IStream.extractTimeT, IStream.sentry, IStream.good, showInt, hneg, hl, List.dropWhile,
      isSpace, IStream.readSign, startsWithDigit, hc, hrun]
    have hle' : ¬ (9223372036854775808 < i.natAbs) := by omega
    rw [if_neg hle', abs_of_neg hneg, neg_neg]
  · obtain ⟨c, l, hl, hdig, hval⟩ := showNat_spec i.toNat
    have hc := hdig c (List.mem_cons_self _ _)
    obtain ⟨hsp, hminus, hplus, _⟩ := digit_not_special c hc
    have hrun := readDigits_run ('\n' :: r) rfl (c :: l) 0 hdig
    rw [hval] at hrun
    simp only [List.cons_append] at hrun
    have hsign : IStream.readSign (c :: (l ++ '\n' :: r)) = (false, c :: (l ++ '\n' :: r)) := by
      unfold IStream.readSign
      split
      · next h => cases h; exact absurd rfl hminus
      · next h => cases h; exact absurd rfl hplus
      · rfl
    have hle : ¬ (2 ^ 63 ≤ i.toNat) := by omega
    have hback : (i.toNat : Int) = i := by omega
    simp [IStream.extractTimeT, IStream.sentry, IStream.good, showInt, hneg, hl, List.dropWhile,
      hsp, hsign, startsWithDigit, hc, hrun, hle, hback]
    omega

theorem splitLine_line (r : Str) :
    ∀ l : Str, '\n' ∉ l → IStream.splitLine (l ++ '\n' :: r) = (l, some r)
  | [], _ => by simp [IStream.splitLine]
  | c :: l, h => by
    have hc : c ≠ '\n' := fun hc => h (hc ▸ List.mem_cons_self _ _)
    have ih := splitLine_line r l (fun hm => h (List.mem_cons_of_mem _ hm))
    simp [IStream.splitLine, hc, ih]

theorem getline_line (l r : Str) (h : '\n' ∉ l) :
    IStream.getline ⟨l ++ '\n' :: r, false, false⟩ = (l, ⟨r, false, false⟩) := by
  simp [IStream.getline, IStream.good, splitLine_line r l h]

theorem ignore_newline (r : Str) :
    IStream.ignore ⟨'\n' :: r, false, false⟩ = ⟨r, false, false⟩ := by
  simp [IStream.ignore, IStream.good]

theorem construct_path (E : Env) (fs : FS) (p : Path) (o : BackupObject)
    (h : BackupObject.construct E fs p = Except.ok o) : o.path = p := by
  unfold BackupObject.construct at h
  split at h
  · cases h
  · split at h
    · cases h
    · split at h
      · cases h
      · cases h; rfl

theorem reloadable_construct (E : Env) (fs : FS) (o : BackupObject) (h : Reloadable fs o) :
    '\n' ∉ o.path ∧ ∃ o', BackupObject.construct E fs o.path = Except.ok o' := by
  obtain ⟨hnl, habs, hopen⟩ := h
  obtain ⟨b, hb⟩ := Option.isSome_iff_exists.mp hopen
  have hp : o.path ≠ [] := by
    intro hp; rw [hp] at habs; cases habs
  exact ⟨hnl, ⟨o.path, hexDigest (E.sha.final (hashBlocks E.sha (b.length + 1) E.sha.init b))⟩,
    by simp [BackupObject.construct, hp, habs, calculateFileChecksum, hb]⟩

theorem readObjects_pathLines (E : Env) (fs : FS) (r : Str) :
    ∀ (os acc : List BackupObject), (∀ o ∈ os, Reloadable fs o) →
      ∃ os' : List BackupObject, os'.map (fun o => o.path) = os.map (fun o => o.path)
        ∧ readObjects E fs os.length ⟨pathLines os ++ r, false, false⟩ acc
            = (Except.ok (), acc ++ os', ⟨r, false, false⟩)
  | [], acc, _ => ⟨[], rfl, by simp [readObjects, pathLines]⟩
  | o :: os, acc, h => by
    obtain ⟨hnl, o', ho'⟩ := reloadable_construct E fs o (h o (List.mem_cons_self _ _))
    obtain ⟨os', hmap, hread⟩ :=
      readObjects_pathLines E fs r os (acc ++ [o']) (fun x hx => h x (List.mem_cons_of_mem _ hx))
    refine ⟨o' :: os', by simp [hmap, construct_path E fs _ _ ho'], ?_⟩
    have hline : IStream.getline ⟨pathLines (o :: os) ++ r, false, false⟩
        = (o.path, ⟨pathLines os ++ r, false, false⟩) := by
      have := getline_line o.path (pathLines os ++ r) hnl
      simpa [pathLines, List.flatMap_cons, List.append_assoc] using this
    simp only [List.length_cons, readObjects, hline, ho', hread, List.append_assoc,
      List.singleton_append]

theorem wrap64_id (x : Int) (hlo : -(2 ^ 63) ≤ x) (hhi : x < 2 ^ 63) : wrap64 x = x := by
  unfold wrap64
  rw [Int.emod_eq_of_lt (by omega) (by omega)]
  omega

theorem toTimeT_bounds (t : Int) (hlo : -(2 ^ 63) ≤ t) (hhi : t < 2 ^ 63) :
    -(2 ^ 63) ≤ toTimeT t ∧ toTimeT t < 2 ^ 63
      ∧ -(2 ^ 63) ≤ toTimeT t * 1000000000 ∧ toTimeT t * 1000000000 < 2 ^ 63 := by
  unfold toTimeT
  by_cases h : 0 ≤ t
  · rw [Int.tdiv_eq_ediv h (by decide)]
    omega
  · have hn : 0 ≤ -t := by omega
    have : t = -(-t) := by omega
    rw [this, Int.neg_tdiv, Int.tdiv_eq_ediv hn (by decide)]
    omega

theorem toTimeT_fromTimeT (s : Int) (hlo : -(2 ^ 63) ≤ s * 1000000000)
    (hhi : s * 1000000000 < 2 ^ 63) : toTimeT (fromTimeT s) = s := by
  unfold fromTimeT toTimeT
  rw [wrap64_id _ hlo hhi]
  exact Int.mul_tdiv_cancel _ (by decide)

theorem deserialize_serialize (E : Env) (fs : FS) (point : RestorePoint) (r : Str)
    (hloc : '\n' ∉ point.location) (hv : point.Valid)
    (hobjs : ∀ o ∈ point.objects, Reloadable fs o) :
    ∃ point' : RestorePoint, point'.summary = point.summary
      ∧ point'.timestamp = toTimeT point.timestamp * 1000000000
      ∧ RestorePoint.deserialize E fs ⟨point.serialize ++ r, false, false⟩
          = (Except.ok point', ⟨r, false, false⟩) := by
  obtain ⟨hne, hlne, hlo, hhi, hlen⟩ := hv
  obtain ⟨h1, h2, h3, h4⟩ := toTimeT_bounds _ hlo hhi
  obtain ⟨os', hmap, hread⟩ := readObjects_pathLines E fs r point.objects [] hobjs
  have hos' : os' ≠ [] := by
    intro h
    rw [h] at hmap
    exact hne (List.map_eq_nil_iff.mp hmap.symm)
  have hshape : point.serialize ++ r
      = point.location ++ '\n' :: (showInt (toTimeT point.timestamp) ++ '\n' ::
          (showNat point.objects.length ++ '\n' :: (pathLines point.objects ++ r))) := by
    simp [RestorePoint.serialize, List.append_assoc]
  have hts : fromTimeT (toTimeT point.timestamp) = toTimeT point.timestamp * 1000000000 :=
    wrap64_id _ h3 h4
  refine ⟨⟨os', point.location, toTimeT point.timestamp * 1000000000⟩, ?_, rfl, ?_⟩
  · simp only [RestorePoint.summary, hmap]
    rw [← hts, toTimeT_fromTimeT _ h3 h4]
  · unfold RestorePoint.deserialize
    rw [hshape, getline_line _ _ hloc]
    dsimp only
    rw [extractTimeT_showInt _ h1 h2]
    dsimp only
    rw [ignore_newline, extractSizeT_showNat _ hlen]
    dsimp only
    rw [ignore_newline, Option.getD_some, hread]
    dsimp only
    rw [Option.getD_some, hts, List.nil_append]
    unfold RestorePoint.construct
    rw [if_neg hos', if_neg hlne]

theorem readPoints_zero (E : Env) (fs : FS) (s : IStream) (acc : List RestorePoint) :
    BackupJob.readPoints E fs 0 s acc = (Except.ok (), acc) := rfl

theorem readPoints_succ (E : Env) (fs : FS) (count : Nat) (s : IStream)
    (acc : List RestorePoint) :
    BackupJob.readPoints E fs (count + 1) s acc
      = match RestorePoint.deserialize E fs s with
        | (Except.error e, _) => (Except.error e, acc)
        | (Except.ok point, s1) => BackupJob.readPoints E fs count s1 (acc ++ [point]) := rfl

theorem readPoints_serialize (E : Env) (fs : FS) :
    ∀ (points acc : List RestorePoint),
      (∀ point ∈ points, '\n' ∉ point.location ∧ point.Valid
        ∧ ∀ o ∈ point.objects, Reloadable fs o) →
      ∃ points' : List RestorePoint,
        points'.map RestorePoint.summary = points.map RestorePoint.summary
        ∧ (∀ point ∈ points', ∃ s : Int, point.timestamp = s * 1000000000)
        ∧ BackupJob.readPoints E fs points.length
            ⟨points.flatMap RestorePoint.serialize, false, false⟩ acc
            = (Except.ok (), acc ++ points')
  | [], acc, _ => ⟨[], rfl, by simp, by
      rw [List.length_nil, readPoints_zero, List.append_nil]⟩
  | point :: points, acc, h => by
    obtain ⟨hloc, hv, hobjs⟩ := h point (List.mem_cons_self _ _)
    obtain ⟨point', hsum, hts, hde⟩ :=
      deserialize_serialize E fs point (points.flatMap RestorePoint.serialize) hloc hv hobjs
    obtain ⟨points', hmap, hwhole, hread⟩ :=
      readPoints_serialize E fs points (acc ++ [point'])
        (fun x hx => h x (List.mem_cons_of_mem _ hx))
    refine ⟨point' :: points', by simp [hmap, hsum], ?_, ?_⟩
    · intro x hx
      rcases List.mem_cons.mp hx with hx | hx
      · exact ⟨_, hx ▸ hts⟩
      · exact hwhole x hx
    · rw [List.length_cons, readPoints_succ, List.flatMap_cons, hde]
      dsimp only
      rw [hread, List.append_assoc, List.singleton_append]

theorem node_put (fs : FS) (k q : Key) (n : Node) :
    (fs.put k n).node q = if q = [] then some Node.dir else if q = k then some n else fs.node q := by
  unfold FS.node FS.put
  by_cases hq : q = []
  · simp [hq]
  · by_cases hk : q = k
    · simp [hq, hk, List.lookup_cons]
    · have hb : (q == k) = false := by simpa using hk
      simp [hq, hk, List.lookup_cons, hb]

theorem saveState_ok (job : BackupJob) (fs : FS) (f : Path)
    (h : (job.saveState fs f).result = Except.ok ()) :
    (job.saveState fs f).fs.openRead f = some (BackupJob.stateText job) := by
  unfold BackupJob.saveState at h ⊢
  cases hw : fs.openWrite f with
  | none => rw [hw] at h; cases h
  | some k =>
    simp only []
    unfold FS.openWrite at hw
    split at hw
    · cases hw
    · next hcond =>
      simp only [Bool.or_eq_true, decide_eq_true_eq, not_or, Bool.not_eq_true] at hcond
      obtain ⟨⟨hf, hnd⟩, _⟩ := hcond
      have hk : k = resolve f ∧ fs.node (resolve f) ≠ some Node.dir := by
        split at hw
        · next hn => cases hw; exact ⟨rfl, by rw [hn]; simp⟩
        · next hn => cases hw; exact ⟨rfl, by rw [hn]; simp⟩
        · cases hw
      obtain ⟨hk, hnotdir⟩ := hk
      have hroot : resolve f ≠ [] := by
        intro h0; apply hnotdir; rw [h0]; rfl
      subst hk
      simp [FS.openRead, FS.status, hf, node_put, hroot, hnd]

/-- C1: let `J` be a job state within the bounds of its types, whose tracked paths (in the
registry and in the restore points) and restore-point locations have no newline, and let
`saveState(f)` have written its file; if every tracked path is absolute and still readable,
`loadState(f)` on any job returns and leaves that job with the tracked paths of `J` in order and
with as many restore points, in order, each with the same location, the same time in whole
seconds (and no fraction of a second) and the same list of object paths. -/
theorem saveState_loadState_roundtrip (E : Env) (J J' : BackupJob) (fs : FS) (f : Path)
    (hvalid : J.Valid)
    (hsave : (J.saveState fs f).result = Except.ok ())
    (hobjs : ∀ o ∈ J.objects, Reloadable (J.saveState fs f).fs o)
    (hpoints : ∀ point ∈ J.restorePoints, '\n' ∉ point.location
      ∧ ∀ o ∈ point.objects, Reloadable (J.saveState fs f).fs o) :
    (J'.loadState E (J.saveState fs f).fs f).result = Except.ok ()
      ∧ (J'.loadState E (J.saveState fs f).fs f).job.objects.map (fun o => o.path)
          = J.objects.map (fun o => o.path)
      ∧ (J'.loadState E (J.saveState fs f).fs f).job.restorePoints.map RestorePoint.summary
          = J.restorePoints.map RestorePoint.summary
      ∧ ∀ point ∈ (J'.loadState E (J.saveState fs f).fs f).job.restorePoints,
          ∃ s : Int, point.timestamp = s * 1000000000 := by
  obtain ⟨hlen, hplen, hpv⟩ := hvalid
  have hopen := saveState_ok J fs f hsave
  generalize (J.saveState fs f).fs = fs1 at hopen hobjs hpoints ⊢
  obtain ⟨os', hmap, hread⟩ := readObjects_pathLines E fs1
    (showNat J.restorePoints.length ++ '\n' :: J.restorePoints.flatMap RestorePoint.serialize)
    J.objects [] hobjs
  obtain ⟨points', hpmap, hwhole, hpread⟩ := readPoints_serialize E fs1 J.restorePoints []
    (fun point hp => ⟨(hpoints point hp).1, hpv point hp, (hpoints point hp).2⟩)
  have hshape : BackupJob.stateText J = showNat J.objects.length ++ '\n' :: (pathLines J.objects
      ++ (showNat J.restorePoints.length ++ '\n' :: J.restorePoints.flatMap RestorePoint.serialize)) := by
    simp [BackupJob.stateText, List.append_assoc]
  unfold BackupJob.loadState
  rw [hopen]
  dsimp only
  rw [hshape, extractSizeT_showNat _ hlen]
  dsimp only
  rw [ignore_newline, Option.getD_some, hread]
  dsimp only
  rw [extractSizeT_showNat _ hplen]
  dsimp only
  rw [ignore_newline, Option.getD_some, hpread]
  dsimp only
  rw [List.nil_append, List.nil_append]
  exact ⟨rfl, hmap, hpmap, hwhole⟩

/-- C1 (witness): the job with two files and one restore point is saved to `/state` and
loaded into an empty job. -/
theorem saveState_loadState_roundtrip_witness :
    (emptyJob.loadState env (jobWithPoint.saveState diskWithPoint "/state".toList).fs
        "/state".toList).result = Except.ok ()
      ∧ (emptyJob.loadState env (jobWithPoint.saveState diskWithPoint "/state".toList).fs
          "/state".toList).job.objects.map (fun o => o.path)
          = jobWithPoint.objects.map (fun o => o.path)
      ∧ (emptyJob.loadState env (jobWithPoint.saveState diskWithPoint "/state".toList).fs
          "/state".toList).job.restorePoints.map RestorePoint.summary
          = jobWithPoint.restorePoints.map RestorePoint.summary
      ∧ ∀ point ∈ (emptyJob.loadState env (jobWithPoint.saveState diskWithPoint "/state".toList).fs
          "/state".toList).job.restorePoints, ∃ s : Int, point.timestamp = s * 1000000000 :=
  saveState_loadState_roundtrip env jobWithPoint emptyJob diskWithPoint "/state".toList
    (by decide) (by decide) (by decide) (by decide)

theorem splitSlash_ne_nil (p : Path) : splitSlash p ≠ [] := by
  cases p with
  | nil => simp [splitSlash]
  | cons c cs =>
    unfold splitSlash
    split
    · simp
    · split <;> simp

theorem splitSlash_noSlash : ∀ nm : Str, '/' ∉ nm → splitSlash nm = [nm]
  | [], _ => rfl
  | c :: cs, h => by
    have hc : c ≠ '/' := fun hc => h (hc ▸ List.mem_cons_self _ _)
    have ih := splitSlash_noSlash cs (fun hm => h (List.mem_cons_of_mem _ hm))
    simp [splitSlash, hc, ih]

theorem splitSlash_cons_slash (p : Path) : splitSlash ('/' :: p) = [] :: splitSlash p := by
  simp [splitSlash]

theorem splitSlash_cons_other (c : Char) (hc : c ≠ '/') (p : Path) :
    ∃ s ss, splitSlash p = s :: ss ∧ splitSlash (c :: p) = (c :: s) :: ss := by
  cases h : splitSlash p with
  | nil => exact absurd h (splitSlash_ne_nil p)
  | cons s ss => exact ⟨s, ss, rfl, by simp [splitSlash, hc, h]⟩

/-- Appending a separator and a further path appends the segments. -/
theorem splitSlash_append_slash (q : Path) :
    ∀ p : Path, splitSlash (p ++ '/' :: q) = splitSlash p ++ splitSlash q
  | [] => by simp [splitSlash]
  | c :: p => by
    have ih := splitSlash_append_slash q p
    by_cases hc : c = '/'
    · subst hc
      rw [List.cons_append, splitSlash_cons_slash, splitSlash_cons_slash, ih, List.cons_append]
    · obtain ⟨s, ss, hs, hcs⟩ := splitSlash_cons_other c hc p
      obtain ⟨s', ss', hs', hcs'⟩ := splitSlash_cons_other c hc (p ++ '/' :: q)
      rw [List.cons_append, hcs', hcs]
      rw [ih, hs, List.cons_append] at hs'
      cases hs'
      rfl

/-- Appending text without a separator extends the last segment. -/
theorem splitSlash_append_name (nm : Str) (hnm : '/' ∉ nm) :
    ∀ p : Path, splitSlash (p ++ nm) = (splitSlash p).dropLast ++ [filename p ++ nm]
  | [] => by simp [splitSlash_noSlash nm hnm, splitSlash, filename]
  | c :: p => by
    have ih := splitSlash_append_name nm hnm p
    by_cases hc : c = '/'
    · subst hc
      rw [List.cons_append, splitSlash_cons_slash, splitSlash_cons_slash, ih]
      obtain ⟨s, ss, hs⟩ := List.exists_cons_of_ne_nil (splitSlash_ne_nil p)
      simp [filename, splitSlash_cons_slash, hs, List.dropLast]
    · obtain ⟨s, ss, hs, hcs⟩ := splitSlash_cons_other c hc p
      obtain ⟨s', ss', hs', hcs'⟩ := splitSlash_cons_other c hc (p ++ nm)
      rw [List.cons_append, hcs', hcs]
      rw [ih, hs] at hs'
      cases ss with
      | nil =>
        simp [filename, hs, List.dropLast] at hs'
        simp [filename, hcs, hs'.1, hs'.2, List.dropLast]
      | cons t ts =>
        simp [filename, hs, List.dropLast] at hs'
        simp [filename, hcs, hs'.1, hs'.2, List.dropLast]

theorem splitSlash_segments_noSlash : ∀ (p : Path) (s : Str), s ∈ splitSlash p → '/' ∉ s
  | [], s, h => by
    simp [splitSlash] at h; subst h; simp
  | c :: p, s, h => by
    by_cases hc : c = '/'
    · subst hc
      rw [splitSlash_cons_slash] at h
      rcases List.mem_cons.mp h with h | h
      · subst h; simp
      · exact splitSlash_segments_noSlash p s h
    · obtain ⟨t, ts, ht, hct⟩ := splitSlash_cons_other c hc p
      rw [hct] at h
      rcases List.mem_cons.mp h with h | h
      · subst h
        have := splitSlash_segments_noSlash p t (ht ▸ List.mem_cons_self _ _)
        intro hm
        rcases List.mem_cons.mp hm with hm | hm
        · exact hc hm.symm
        · exact this hm
      · exact splitSlash_segments_noSlash p s (ht ▸ List.mem_cons_of_mem _ h)

theorem splitSlash_eq_dropLast_filename (p : Path) :
    splitSlash p = (splitSlash p).dropLast ++ [filename p] := by
  unfold filename
  obtain ⟨s, ss, hs⟩ := List.exists_cons_of_ne_nil (splitSlash_ne_nil p)
  rw [hs]
  have := List.dropLast_append_getLast (List.cons_ne_nil s ss)
  rw [List.getLastD_cons, ← List.getLast_eq_getLastD]
  exact this.symm

theorem filename_noSlash (p : Path) : '/' ∉ filename p := by
  apply splitSlash_segments_noSlash p
  rw [splitSlash_eq_dropLast_filename p]
  simp

theorem proper_filename (p : Path) (h : needsDir p = false) : ProperName (filename p) := by
  simp only [needsDir, Bool.or_eq_false_iff, beq_eq_false_iff_ne, ne_eq] at h
  exact ⟨h.1.1, filename_noSlash p, h.1.2, h.2⟩

theorem pushSeg_proper (k : Key) (nm : Str) (h : ProperName nm) : pushSeg k nm = k ++ [nm] := by
  obtain ⟨h1, _, h3, h4⟩ := h
  simp [pushSeg, h1, h3, h4]

theorem resolve_eq_append_filename (p : Path) (h : needsDir p = false) :
    resolve p = (splitSlash p).dropLast.foldl pushSeg [] ++ [filename p] := by
  unfold resolve
  conv_lhs => rw [splitSlash_eq_dropLast_filename p]
  rw [List.foldl_append, List.foldl_cons, List.foldl_nil, pushSeg_proper _ _ (proper_filename p h)]

theorem proper_not_absolute (nm : Str) (h : ProperName nm) : isAbsolute nm = false := by
  obtain ⟨h1, h2, _, _⟩ := h
  cases nm with
  | nil => exact absurd rfl h1
  | cons c cs =>
    have hc : c ≠ '/' := fun hc => h2 (hc ▸ List.mem_cons_self _ _)
    simp [isAbsolute, hc]

/-- The segments of `d / nm` for a proper name: those of `d` without an empty last one, then
the name. -/
theorem splitSlash_join (d : Path) (nm : Str) (h : ProperName nm) :
    splitSlash (pathJoin d nm)
      = (if filename d = [] then (splitSlash d).dropLast else splitSlash d) ++ [nm] := by
  unfold pathJoin
  rw [proper_not_absolute nm h]
  by_cases hf : filename d = []
  · simp only [hasFilename, hf, bne_self_eq_false, Bool.false_eq_true, if_false, if_true]
    rw [splitSlash_append_name nm h.2.1 d, hf, List.nil_append]
  · have hb : hasFilename d = true := by simp [hasFilename, hf]
    simp only [hb, if_true, hf, if_false, Bool.false_eq_true]
    rw [splitSlash_append_slash, splitSlash_noSlash nm h.2.1]

theorem resolve_join (d : Path) (nm : Str) (h : ProperName nm) :
    resolve (pathJoin d nm) = resolve d ++ [nm] := by
  unfold resolve
  rw [splitSlash_join d nm h, List.foldl_append, List.foldl_cons, List.foldl_nil,
    pushSeg_proper _ _ h]
  by_cases hf : filename d = []
  · rw [if_pos hf]
    conv_rhs => rw [splitSlash_eq_dropLast_filename d, hf]
    rw [List.foldl_append, List.foldl_cons, List.foldl_nil]
    simp [pushSeg]
  · rw [if_neg hf]

theorem filename_join (d : Path) (nm : Str) (h : ProperName nm) :
    filename (pathJoin d nm) = nm := by
  unfold filename
  rw [splitSlash_join d nm h]
  simp [List.getLastD_eq_getLast?]

theorem needsDir_join (d : Path) (nm : Str) (h : ProperName nm) :
    needsDir (pathJoin d nm) = false := by
  obtain ⟨h1, _, h3, h4⟩ := h
  simp [needsDir, filename_join d nm ⟨h1, ‹_›, h3, h4⟩, h1, h3, h4]

theorem join_ne_nil (d : Path) (nm : Str) (h : ProperName nm) : pathJoin d nm ≠ [] := by
  intro hp
  have := filename_join d nm h
  rw [hp] at this
  exact h.1 (by simpa [filename, splitSlash] using this.symm)

theorem status_regular_iff (fs : FS) (p : Path) (b : Str) :
    fs.status p = Status.regular b
      ↔ p ≠ [] ∧ needsDir p = false ∧ fs.node (resolve p) = some (Node.file b) := by
  unfold FS.status
  by_cases hp : p = []
  · simp [hp]
  · rw [if_neg hp]
    cases hn : fs.node (resolve p) with
    | none => simp [hp]
    | some n =>
      cases n with
      | file b' =>
        cases hd : needsDir p <;> simp [hp]
      | dir => simp [hp]
      | noaccess => simp [hp]

theorem status_congr (fs fs' : FS) (p : Path)
    (h : fs'.node (resolve p) = fs.node (resolve p)) : fs'.status p = fs.status p := by
  unfold FS.status
  rw [h]

theorem verifyChecksum_congr (E : Env) (fs fs' : FS) (o : BackupObject)
    (h : fs'.status o.path = fs.status o.path) :
    o.verifyChecksum E fs' = o.verifyChecksum E fs := by
  unfold BackupObject.verifyChecksum BackupObject.exists BackupObject.calculateChecksum
    calculateFileChecksum FS.openRead
  rw [h]

theorem verifyAll_congr (E : Env) (fs fs' : FS) :
    ∀ os : List BackupObject, (∀ o ∈ os, fs'.status o.path = fs.status o.path) →
      RestorePoint.verifyAll E fs' os = RestorePoint.verifyAll E fs os
  | [], _ => rfl
  | o :: os, h => by
    unfold RestorePoint.verifyAll
    rw [verifyChecksum_congr E fs fs' o (h o (List.mem_cons_self _ _)),
      verifyAll_congr E fs fs' os (fun x hx => h x (List.mem_cons_of_mem _ hx))]

theorem verifyAll_true (E : Env) (fs : FS) :
    ∀ os : List BackupObject, (∀ o ∈ os, o.verifyChecksum E fs = Except.ok true) →
      RestorePoint.verifyAll E fs os = Except.ok true
  | [], _ => rfl
  | o :: os, h => by
    unfold RestorePoint.verifyAll
    rw [h o (List.mem_cons_self _ _)]
    exact verifyAll_true E fs os (fun x hx => h x (List.mem_cons_of_mem _ hx))

theorem verifyChecksum_true_regular (E : Env) (fs : FS) (o : BackupObject)
    (h : o.verifyChecksum E fs = Except.ok true) : ∃ b, fs.status o.path = Status.regular b := by
  unfold BackupObject.verifyChecksum BackupObject.exists BackupObject.calculateChecksum
    calculateFileChecksum FS.openRead at h
  cases hs : fs.status o.path with
  | regular b => exact ⟨b, rfl⟩
  | notFound => rw [hs] at h; simp at h
  | directory => rw [hs] at h; simp at h
  | unknown => rw [hs] at h; simp at h

theorem exists_of_regular (fs : FS) (o : BackupObject) (b : Str)
    (h : fs.status o.path = Status.regular b) : o.exists fs = Except.ok true := by
  unfold BackupObject.exists
  rw [h]

theorem node_addDirs_of_some (k : Key) (n : Node) :
    ∀ (qs : List Key) (fs : FS), fs.node k = some n → (fs.addDirs qs).node k = some n
  | [], _, h => h
  | q :: qs, fs, h => by
    unfold FS.addDirs
    apply node_addDirs_of_some k n qs
    split
    · next hq =>
      rw [node_put]
      by_cases hk : k = []
      · subst hk; rw [if_pos rfl]; simpa [FS.node] using h
      · rw [if_neg hk]
        by_cases hkq : k = q
        · subst hkq
          simp only [beq_iff_eq] at hq
          rw [hq] at h; cases h
        · rw [if_neg hkq]; exact h
    · exact h

theorem node_addDirs_of_not_mem (k : Key) :
    ∀ (qs : List Key) (fs : FS), k ∉ qs → (fs.addDirs qs).node k = fs.node k
  | [], _, _ => rfl
  | q :: qs, fs, h => by
    unfold FS.addDirs
    rw [node_addDirs_of_not_mem k qs _ (fun hm => h (List.mem_cons_of_mem _ hm))]
    have hkq : k ≠ q := fun hkq => h (hkq ▸ List.mem_cons_self _ _)
    split
    · rw [node_put]
      by_cases hk : k = []
      · subst hk; simp [FS.node]
      · rw [if_neg hk, if_neg hkq]
    · rfl

theorem node_addDirs_of_mem (k : Key) :
    ∀ (qs : List Key) (fs : FS), k ∈ qs → fs.node k = none →
      (fs.addDirs qs).node k = some Node.dir
  | q :: qs, fs, h, hn => by
    unfold FS.addDirs
    by_cases hkq : k = q
    · subst hkq
      have hk : k ≠ [] := resolve_ne_nil_of_node_none fs k hn
      apply node_addDirs_of_some
      simp [hn, node_put, hk]
    · have hm : k ∈ qs := by
        rcases List.mem_cons.mp h with h | h
        · exact absurd h hkq
        · exact h
      apply node_addDirs_of_mem k qs _ hm
      split
      · rw [node_put]
        have hk : k ≠ [] := resolve_ne_nil_of_node_none fs k hn
        rw [if_neg hk, if_neg hkq]; exact hn
      · exact hn

/-- What `create_directories` leaves: the directory is there, what existed is as it was, and
only missing ancestors of the directory have appeared. -/
theorem createDirectories_spec (fs : FS) (p : Path) (made : Bool) (fs1 : FS)
    (h : fs.createDirectories p = Except.ok (made, fs1)) :
    fs1.node (resolve p) = some Node.dir
      ∧ (∀ k n, fs.node k = some n → fs1.node k = some n)
      ∧ (∀ k, ¬ k <+: resolve p → fs1.node k = fs.node k) := by
  cases made with
  | false =>
    have hp := createDirectories_ok_ne _ _ _ h
    unfold FS.createDirectories at h
    rw [if_neg hp] at h
    split at h
    · next hn => cases h; exact ⟨hn, fun _ _ hk => hk, fun _ _ => rfl⟩
    · cases h
    · split at h <;> cases h
  | true =>
    obtain ⟨_, hnone, _, hfs1⟩ := createDirectories_made fs p fs1 h
    subst hfs1
    refine ⟨?_, ?_, ?_⟩
    · exact node_addDirs_of_mem _ _ _ ((List.mem_inits _ _).mpr (List.prefix_refl _)) hnone
    · intro k n hk
      exact node_addDirs_of_some k n _ _ hk
    · intro k hk
      exact node_addDirs_of_not_mem k _ _ (fun hm => hk ((List.mem_inits _ _).mp hm))

theorem node_none_below (fs : FS) (hwf : fs.WF) (K k : Key) (hK : fs.node K = none)
    (hk : K <+: k) : fs.node k = none := by
  cases hn : fs.node k with
  | none => rfl
  | some n =>
    by_cases hKk : K = k
    · subst hKk; rw [hK] at hn; cases hn
    · have := hwf k n hn K hk hKk
      rw [hK] at this; cases this

theorem writeFile_slot (fs : FS) (b : Str) (src D : Key) (nm : Str)
    (hD : fs.node D = some Node.dir) (hne : D ++ [nm] ≠ src) (hslot : FreeOrFile fs (D ++ [nm])) :
    fs.writeFile b src (D ++ [nm]) = some (fs.put (D ++ [nm]) (Node.file b)) := by
  unfold FS.writeFile
  have h1 : (D ++ [nm] == src) = false := by simpa using hne
  rw [h1, List.dropLast_concat, hD]
  simp only [bne_self_eq_false, Bool.or_self, Bool.false_eq_true, if_false]
  rcases hslot with h | ⟨b', h⟩ <;> rw [h]

theorem copyFile_join (fs : FS) (loc tgt : Path) (nm : Str) (b : Str) (hnm : ProperName nm)
    (hsrc : fs.node (resolve loc ++ [nm]) = some (Node.file b))
    (hT : fs.node (resolve tgt) = some Node.dir) (hne : resolve tgt ≠ resolve loc)
    (hslot : FreeOrFile fs (resolve tgt ++ [nm])) :
    fs.copyFile (pathJoin loc nm) (pathJoin tgt nm)
      = some (fs.put (resolve tgt ++ [nm]) (Node.file b)) := by
  have hst : fs.status (pathJoin loc nm) = Status.regular b :=
    (status_regular_iff _ _ _).mpr
      ⟨join_ne_nil loc nm hnm, needsDir_join loc nm hnm, by rw [resolve_join loc nm hnm]; exact hsrc⟩
  unfold FS.copyFile
  rw [hst]
  simp only [needsDir_join tgt nm hnm, Bool.false_eq_true, if_false]
  rw [resolve_join tgt nm hnm, resolve_join loc nm hnm]
  apply writeFile_slot fs b _ _ _ hT _ hslot
  intro h
  exact hne (List.append_cancel_right h)

theorem node_put_other (fs : FS) (k q : Key) (n : Node) (h : q ≠ k) :
    (fs.put k n).node q = fs.node q := by
  rw [node_put]
  by_cases hq : q = []
  · subst hq; simp [FS.node]
  · rw [if_neg hq, if_neg h]

theorem node_put_self (fs : FS) (k : Key) (n : Node) (hk : k ≠ []) :
    (fs.put k n).node k = some n := by
  rw [node_put, if_neg hk, if_pos rfl]

theorem restoreLoop_run (point : RestorePoint) (T : Path) (calls : CancelSchedule) (count : Nat) :
    ∀ (m : Nat) (os : List BackupObject) (idx : Nat) (job : BackupJob) (fs : FS)
      (reports : List Report),
      m ≤ os.length → job.operationCancelled = false →
      (∀ j, j < m → calls.betweenSteps (idx + j) = false ∧ calls.duringStep (idx + j) = false) →
      (m < os.length → calls.betweenSteps (idx + m) = true) →
      fs.node (resolve T) = some Node.dir → resolve T ≠ resolve point.location →
      (∀ o ∈ os.take m, needsDir o.path = false
        ∧ (∃ b, fs.node (resolve point.location ++ [filename o.path]) = some (Node.file b))
        ∧ FreeOrFile fs (resolve T ++ [filename o.path])) →
      (BackupJob.restoreLoop point T calls count os idx job fs reports).result
          = (if m < os.length then Except.error Error.cancelled else Except.ok ())
        ∧ (BackupJob.restoreLoop point T calls count os idx job fs reports).job.operationCancelled
          = decide (m < os.length)
        ∧ (∀ k, (∀ o ∈ os.take m, k ≠ resolve T ++ [filename o.path]) →
            (BackupJob.restoreLoop point T calls count os idx job fs reports).fs.node k
              = fs.node k)
        ∧ (∀ o ∈ os.take m,
            (BackupJob.restoreLoop point T calls count os idx job fs reports).fs.node
                (resolve T ++ [filename o.path])
              = fs.node (resolve point.location ++ [filename o.path]))
  | 0, [], idx, job, fs, reports, _, hflag, _, _, _, _, _ => by
    simp [BackupJob.restoreLoop, hflag]
  | 0, o :: os, idx, job, fs, reports, _, hflag, _, hcancel, _, _, _ => by
    have hc : calls.betweenSteps idx = true := by simpa using hcancel (by simp)
    simp [BackupJob.restoreLoop, hflag, hc]
  | m + 1, [], idx, job, fs, reports, hlen, _, _, _, _, _, _ => by
    simp at hlen
  | m + 1, o :: os, idx, job, fs, reports, hlen, hflag, hquiet, hcancel, hT, hne, hfiles => by
    have hq0 := hquiet 0 (Nat.succ_pos m)
    rw [Nat.add_zero] at hq0
    obtain ⟨hnd, ⟨b, hsrc⟩, hslot⟩ := hfiles o (by simp)
    have hnm := proper_filename o.path hnd
    have hcopy := copyFile_join fs point.location T (filename o.path) b hnm hsrc hT hne hslot
    have hTk : resolve T ++ [filename o.path] ≠ resolve T := by
      intro h
      have := congrArg List.length h
      simp at this
    have hstep : ∀ x : Str, resolve point.location ++ [x] ≠ resolve T ++ [filename o.path] := by
      intro x h
      exact hne (List.append_inj' h rfl).1.symm
    have ih := restoreLoop_run point T calls count m os (idx + 1)
      { job with operationCancelled := job.operationCancelled || calls.duringStep idx }
      (fs.put (resolve T ++ [filename o.path]) (Node.file b))
      (job.reportProgress (Progress.accumulated idx count)
        (Message.restoring (filename o.path)) reports)
      (by simpa using hlen) (by simp [hflag, hq0.2])
      (fun j hj => by
        have := hquiet (j + 1) (Nat.succ_lt_succ hj)
        rwa [← Nat.add_assoc, Nat.add_right_comm] at this)
      (fun hlt => by
        have := hcancel (by simpa using hlt)
        rwa [← Nat.add_assoc, Nat.add_right_comm] at this)
      (by rw [node_put_other _ _ _ _ hTk.symm]; exact hT) hne
      (fun x hx => by
        obtain ⟨hxd, ⟨bx, hxs⟩, hxslot⟩ := hfiles x (by simp [List.take_succ_cons, hx])
        refine ⟨hxd, ⟨bx, by rw [node_put_other _ _ _ _ (hstep _)]; exact hxs⟩, ?_⟩
        by_cases hsame : filename x.path = filename o.path
        · right
          exact ⟨b, by rw [hsame]; exact node_put_self _ _ _ (by simp)⟩
        · unfold FreeOrFile
          rw [node_put_other _ _ _ _ (fun h => hsame (by simpa using h))]
          exact hxslot)
    have hunfold : BackupJob.restoreLoop point T calls count (o :: os) idx job fs reports
        = BackupJob.restoreLoop point T calls count os (idx + 1)
            { job with operationCancelled := job.operationCancelled || calls.duringStep idx }
            (fs.put (resolve T ++ [filename o.path]) (Node.file b))
            (job.reportProgress (Progress.accumulated idx count)
              (Message.restoring (filename o.path)) reports) := by
      rw [BackupJob.restoreLoop]
      simp only [hflag, hq0.1, Bool.or_self, Bool.false_eq_true, if_false, hcopy]
    rw [hunfold]
    obtain ⟨ih1, ih2, ih3, ih4⟩ := ih
    refine ⟨by simpa using ih1, by simpa using ih2, ?_, ?_⟩
    · intro k hk
      rw [ih3 k (fun x hx => hk x (by simp [List.take_succ_cons, hx]))]
      exact node_put_other _ _ _ _ (hk o (by simp))
    · intro x hx
      simp only [List.take_succ_cons, List.mem_cons] at hx
      have hlater : ∀ y ∈ os.take m,
          (BackupJob.restoreLoop point T calls count os (idx + 1)
            { job with operationCancelled := job.operationCancelled || calls.duringStep idx }
            (fs.put (resolve T ++ [filename o.path]) (Node.file b))
            (job.reportProgress (Progress.accumulated idx count)
              (Message.restoring (filename o.path)) reports)).fs.node
              (resolve T ++ [filename y.path])
            = fs.node (resolve point.location ++ [filename y.path]) := by
        intro y hy
        rw [ih4 y hy]
        exact node_put_other _ _ _ _ (hstep _)
      rcases hx with hx | hx
      · subst hx
        by_cases hex : ∃ y ∈ os.take m, filename y.path = filename x.path
        · obtain ⟨y, hy, hyx⟩ := hex
          have := hlater y hy
          rw [hyx] at this
          exact this
        · rw [ih3 _ (fun y hy h => hex ⟨y, hy, by simpa using h.symm⟩),
            node_put_self _ _ _ (by simp), hsrc]
      · exact hlater x hx

theorem status_directory_node (fs : FS) (p : Path) (h : fs.status p = Status.directory) :
    fs.node (resolve p) = some Node.dir := by
  unfold FS.status at h
  split at h
  · cases h
  · split at h
    · cases h
    · split at h <;> cases h
    · next hn => exact hn
    · cases h

theorem openRead_join (fs : FS) (d : Path) (nm : Str) (hnm : ProperName nm) :
    fs.openRead (pathJoin d nm)
      = match fs.node (resolve d ++ [nm]) with
        | some (Node.file b) => some b
        | _ => none := by
  unfold FS.openRead FS.status
  rw [if_neg (join_ne_nil d nm hnm), resolve_join d nm hnm, needsDir_join d nm hnm]
  cases h : fs.node (resolve d ++ [nm]) with
  | none => rfl
  | some n => cases n <;> rfl

theorem node_of_openRead_join (fs : FS) (d : Path) (nm : Str) (hnm : ProperName nm)
    (h : (fs.openRead (pathJoin d nm)).isSome = true) :
    ∃ b, fs.node (resolve d ++ [nm]) = some (Node.file b) := by
  rw [openRead_join fs d nm hnm] at h
  cases hn : fs.node (resolve d ++ [nm]) with
  | none => rw [hn] at h; cases h
  | some n =>
    cases n with
    | file b => exact ⟨b, rfl⟩
    | dir => rw [hn] at h; cases h
    | noaccess => rw [hn] at h; cases h

theorem freeOrFile_join (fs : FS) (d : Path) (nm : Str) (hnm : ProperName nm)
    (h : fs.freeOrFile (pathJoin d nm) = true) : FreeOrFile fs (resolve d ++ [nm]) := by
  unfold FS.freeOrFile FS.status at h
  rw [if_neg (join_ne_nil d nm hnm), resolve_join d nm hnm, needsDir_join d nm hnm] at h
  cases hn : fs.node (resolve d ++ [nm]) with
  | none => exact Or.inl hn
  | some n =>
    cases n with
    | file b => exact Or.inr ⟨b, hn⟩
    | dir => rw [hn] at h; cases h
    | noaccess => rw [hn] at h; cases h

theorem targetReady_node (fs : FS) (T : Path) (fs0 : FS) (h : TargetReady fs T fs0) :
    fs0.node (resolve T) = some Node.dir := by
  rcases h with ⟨hd, h0⟩ | ⟨_, made, hc⟩
  · rw [h0]; exact status_directory_node fs T hd
  · exact (createDirectories_spec fs T made fs0 hc).1

theorem restore_eq_loop (E : Env) (job : BackupJob) (fs : FS) (point : RestorePoint) (T : Path)
    (calls : CancelSchedule) (fs0 : FS) (hflag : job.operationCancelled = false)
    (hint : point.verifyIntegrity E fs = Except.ok true) (hT : TargetReady fs T fs0) :
    job.restore E fs point T calls
      = BackupJob.restoreLoop point T calls point.objects.length point.objects 0 job fs0 [] := by
  unfold BackupJob.restore
  simp only [hflag, Bool.false_eq_true, if_false, hint]
  rcases hT with ⟨hd, h0⟩ | ⟨hn, made, hc⟩
  · rw [h0, hd]
  · rw [hn]; simp only [hc]

/-- C8 (as amended): `restore` runs on a job whose flag is unset, the restore point verifies,
the target directory is there or has been made and is not the restore point's own directory,
and the first `k` of the `n > k` objects can be copied (their backup files are readable, their
places in the target are free or hold regular files).  If no call of `cancelOperation()` arrives
before `k` objects have been processed and one arrives then, before the flag is read for the
next object, `restore` throws the cancellation error with the flag set; the target holds the
backup copies of the first `k` objects, and no other location of the filesystem has changed:
nothing of the remaining objects was copied and nothing was undone. -/
theorem restore_cancelled_between_steps (E : Env) (job : BackupJob) (fs fs0 : FS)
    (point : RestorePoint) (targetDir : Path) (calls : CancelSchedule) (k : Nat)
    (hflag : job.operationCancelled = false)
    (hint : point.verifyIntegrity E fs = Except.ok true)
    (hT : TargetReady fs targetDir fs0)
    (hne : resolve targetDir ≠ resolve point.location)
    (hk : k < point.objects.length)
    (hquiet : ∀ j, j < k → calls.betweenSteps j = false ∧ calls.duringStep j = false)
    (hcancel : calls.betweenSteps k = true)
    (hfiles : ∀ o ∈ point.objects.take k, needsDir o.path = false
      ∧ (fs0.openRead (pathJoin point.location (filename o.path))).isSome = true
      ∧ fs0.freeOrFile (pathJoin targetDir (filename o.path)) = true) :
    (job.restore E fs point targetDir calls).result = Except.error Error.cancelled
      ∧ (job.restore E fs point targetDir calls).job.operationCancelled = true
      ∧ (∀ o ∈ point.objects.take k,
          (job.restore E fs point targetDir calls).fs.openRead
              (pathJoin targetDir (filename o.path))
            = fs0.openRead (pathJoin point.location (filename o.path)))
      ∧ (∀ key, (∀ o ∈ point.objects.take k,
            key ≠ resolve (pathJoin targetDir (filename o.path))) →
          (job.restore E fs point targetDir calls).fs.node key = fs0.node key) := by
  rw [restore_eq_loop E job fs point targetDir calls fs0 hflag hint hT]
  obtain ⟨h1, h2, h3, h4⟩ := restoreLoop_run point targetDir calls point.objects.length k
    point.objects 0 job fs0 [] (Nat.le_of_lt hk) hflag
    (fun j hj => by rw [Nat.zero_add]; exact hquiet j hj)
    (fun _ => by rw [Nat.zero_add]; exact hcancel)
    (targetReady_node fs targetDir fs0 hT) hne
    (fun o ho => by
      obtain ⟨hnd, hsrc, hslot⟩ := hfiles o ho
      have hnm := proper_filename o.path hnd
      exact ⟨hnd, node_of_openRead_join fs0 _ _ hnm hsrc, freeOrFile_join fs0 _ _ hnm hslot⟩)
  refine ⟨by simpa [hk] using h1, by simpa [hk] using h2, ?_, ?_⟩
  · intro o ho
    have hnm := proper_filename o.path (hfiles o ho).1
    rw [openRead_join _ _ _ hnm, openRead_join _ _ _ hnm, h4 o ho]
  · intro key hkey
    apply h3 key
    intro o ho
    have hnm := proper_filename o.path (hfiles o ho).1
    rw [← resolve_join targetDir _ hnm]
    exact hkey o ho

theorem openRead_isSome_regular (fs : FS) (p : Path) (h : (fs.openRead p).isSome = true) :
    ∃ b, fs.status p = Status.regular b := by
  unfold FS.openRead at h
  cases hs : fs.status p with
  | regular b => exact ⟨b, rfl⟩
  | notFound => rw [hs] at h; cases h
  | directory => rw [hs] at h; cases h
  | unknown => rw [hs] at h; cases h

theorem openRead_of_regular (fs : FS) (p : Path) (b : Str) (h : fs.status p = Status.regular b) :
    fs.openRead p = some b := by
  unfold FS.openRead; rw [h]

theorem copyFile_some (fs fs1 : FS) (src dst : Path) (h : fs.copyFile src dst = some fs1) :
    ∃ b, fs1 = fs.put (resolve dst) (Node.file b) := by
  unfold FS.copyFile at h
  split at h
  · next b _ =>
    split at h
    · cases h
    · unfold FS.writeFile at h
      split at h
      · cases h
      · split at h
        · cases h; exact ⟨b, rfl⟩
        · cases h; exact ⟨b, rfl⟩
        · cases h
  · cases h

/-- Copying a regular file to `dst / name` changes at most one location, at or below `dst`. -/
theorem copy_regular_below (fs : FS) (src dst : Path) (b : Str)
    (hsrc : fs.status src = Status.regular b) :
    (fs.copy src (pathJoin dst (filename src))).2 = fs
      ∨ ∃ key n, resolve dst <+: key
          ∧ (fs.copy src (pathJoin dst (filename src))).2 = fs.put key n := by
  have hnm : ProperName (filename src) :=
    proper_filename src ((status_regular_iff fs src b).mp hsrc).2.1
  unfold FS.copy
  rw [hsrc]
  simp only []
  cases hd : fs.status (pathJoin dst (filename src)) with
  | directory =>
    simp only []
    cases hc : fs.copyFile src (pathJoin (pathJoin dst (filename src)) (filename src)) with
    | none => exact Or.inl rfl
    | some fs1 =>
      obtain ⟨b', hb'⟩ := copyFile_some _ _ _ _ hc
      refine Or.inr ⟨_, _, ?_, hb'⟩
      rw [resolve_join _ _ hnm, resolve_join _ _ hnm, List.append_assoc]
      exact List.prefix_append _ _
  | unknown => exact Or.inl rfl
  | notFound =>
    simp only []
    cases hc : fs.copyFile src (pathJoin dst (filename src)) with
    | none => exact Or.inl rfl
    | some fs1 =>
      obtain ⟨b', hb'⟩ := copyFile_some _ _ _ _ hc
      refine Or.inr ⟨_, _, ?_, hb'⟩
      rw [resolve_join _ _ hnm]
      exact List.prefix_append _ _
  | regular b0 =>
    simp only []
    cases hc : fs.copyFile src (pathJoin dst (filename src)) with
    | none => exact Or.inl rfl
    | some fs1 =>
      obtain ⟨b', hb'⟩ := copyFile_some _ _ _ _ hc
      refine Or.inr ⟨_, _, ?_, hb'⟩
      rw [resolve_join _ _ hnm]
      exact List.prefix_append _ _

theorem node_of_put_below (fs fs1 : FS) (D : Key)
    (h : fs1 = fs ∨ ∃ key n, D <+: key ∧ fs1 = fs.put key n) (k : Key) (hk : ¬ D <+: k) :
    fs1.node k = fs.node k := by
  rcases h with h | ⟨key, n, hkey, h⟩
  · rw [h]
  · rw [h]
    exact node_put_other _ _ _ _ (fun hkk => hk (hkk ▸ hkey))

theorem singleStoreLoop_frame (dst : Path) :
    ∀ (os : List BackupObject) (fs : FS),
      (∀ o ∈ os, (fs.openRead o.path).isSome = true ∧ ¬ resolve dst <+: resolve o.path) →
      ∀ k, ¬ resolve dst <+: k → (singleStoreLoop dst os fs).2.node k = fs.node k
  | [], _, _, _, _ => rfl
  | o :: os, fs, h, k, hk => by
    obtain ⟨hopen, hout⟩ := h o (List.mem_cons_self _ _)
    obtain ⟨b, hb⟩ := openRead_isSome_regular fs o.path hopen
    have hstep := copy_regular_below fs o.path dst b hb
    have hnode := node_of_put_below fs _ (resolve dst) hstep
    unfold singleStoreLoop
    rw [exists_of_regular fs o b hb]
    simp only []
    cases hc : fs.copy o.path (pathJoin dst (filename o.path)) with
    | mk done fs1 =>
      rw [hc] at hnode
      simp only [] at hnode
      cases done with
      | false => exact hnode k hk
      | true =>
        simp only []
        rw [singleStoreLoop_frame dst os fs1 _ k hk]
        · exact hnode k hk
        · intro x hx
          obtain ⟨hxo, hxout⟩ := h x (List.mem_cons_of_mem _ hx)
          refine ⟨?_, hxout⟩
          unfold FS.openRead at hxo ⊢
          rw [status_congr fs fs1 x.path (hnode _ hxout)]
          exact hxo

theorem single_writesBelow : SingleStorageStrategy.WritesBelow := by
  intro objects dst fs hD hobjs k hk
  show (singleStore objects dst fs).2.node k = fs.node k
  unfold singleStore
  have hdst : dst ≠ [] := by
    intro h
    have : resolve dst = [] := by rw [h]; rfl
    obtain _ | ⟨o, os⟩ := objects
    · exact hk (this ▸ List.nil_prefix)
    · exact (hobjs o (List.mem_cons_self _ _)).2 (this ▸ List.nil_prefix)
  have hc : fs.createDirectories dst = Except.ok (false, fs) := by
    unfold FS.createDirectories
    rw [if_neg hdst, hD]
  rw [hc]
  exact singleStoreLoop_frame dst objects fs hobjs k hk

theorem lookup_some_mem {β : Type} (k : Key) (n : β) :
    ∀ l : List (Key × β), l.lookup k = some n → (k, n) ∈ l
  | [], h => by cases h
  | (q, m) :: l, h => by
    rw [List.lookup_cons] at h
    by_cases hkq : (k == q) = true
    · rw [hkq] at h
      cases h
      rw [beq_iff_eq] at hkq
      subst hkq
      exact List.mem_cons_self _ _
    · rw [Bool.not_eq_true] at hkq
      rw [hkq] at h
      exact List.mem_cons_of_mem _ (lookup_some_mem k n l h)

theorem wf_of_check (fs : FS) (h : fs.wfCheck = true) : fs.WF := by
  intro k n hk q hq hne
  by_cases hk0 : k = []
  · subst hk0
    exact absurd (List.prefix_nil.mp hq) hne
  · unfold FS.node at hk
    rw [if_neg hk0] at hk
    have hmem := lookup_some_mem k n _ hk
    unfold FS.wfCheck at h
    rw [List.all_eq_true] at h
    have := h (k, n) hmem
    rw [List.all_eq_true] at this
    have := this q ((List.mem_inits _ _).mpr hq)
    simp only [Bool.or_eq_true, beq_iff_eq] at this
    rcases this with h1 | h1
    · exact absurd h1 hne
    · exact h1

/-- C2 (as amended): on a well-formed filesystem, with a backend that writes only inside the
destination directory, if every tracked file still verifies against its frozen digest (it is
unchanged since registration) and `createRestorePoint` returns a restore point, then
`verifyIntegrity()` of that point on the filesystem `createRestorePoint` left is true. -/
theorem createRestorePoint_then_verify (E : Env) (job : BackupJob) (fs : FS) (now : Int)
    (point : RestorePoint) (hwf : fs.WF) (hS : job.storageStrategy.WritesBelow)
    (hfiles : ∀ o ∈ job.objects, o.verifyChecksum E fs = Except.ok true)
    (h : (job.createRestorePoint E fs now).result = Except.ok point) :
    point.verifyIntegrity E (job.createRestorePoint E fs now).fs = Except.ok true := by
  obtain ⟨fs1, fs2, _, _, hcd, hst, hp, _, hfs⟩ := createRestorePoint_ok_inv E job fs now point h
  obtain ⟨_, hfresh, _, _⟩ := createDirectories_made fs _ fs1 hcd
  obtain ⟨hdir, hkeep, _⟩ := createDirectories_spec fs _ true fs1 hcd
  have hkey : ∀ o ∈ job.objects, ∃ b, fs.node (resolve o.path) = some (Node.file b)
      ∧ ¬ resolve (job.restorePointPath E now) <+: resolve o.path := by
    intro o ho
    obtain ⟨b, hb⟩ := verifyChecksum_true_regular E fs o (hfiles o ho)
    have hn := ((status_regular_iff fs o.path b).mp hb).2.2
    refine ⟨b, hn, fun hpre => ?_⟩
    rw [node_none_below fs hwf _ _ hfresh hpre] at hn
    cases hn
  have hframe := hS job.objects (job.restorePointPath E now) fs1 hdir (fun o ho => by
    obtain ⟨b, hn, hout⟩ := hkey o ho
    obtain ⟨b', hb'⟩ := verifyChecksum_true_regular E fs o (hfiles o ho)
    refine ⟨?_, hout⟩
    rw [openRead_of_regular fs1 o.path b']
    · rfl
    · rw [status_congr fs fs1 o.path (by rw [hkeep _ _ hn, hn])]; exact hb')
  rw [hst] at hframe
  rw [hfs, hp]
  unfold RestorePoint.verifyIntegrity
  simp only []
  rw [verifyAll_congr E fs fs2 job.objects]
  · exact verifyAll_true E fs job.objects hfiles
  · intro o ho
    obtain ⟨b, hn, hout⟩ := hkey o ho
    apply status_congr
    rw [hframe _ hout, hkeep _ _ hn, hn]

/-- C2 (witness): the restore point of the unchanged `/tmp/a.txt` and `/tmp/b.txt` verifies. -/
theorem createRestorePoint_then_verify_witness :
    RestorePoint.verifyIntegrity env (jobAB.createRestorePoint env disk 5000000000).fs
      ⟨jobAB.objects, "/bk/restore_point_5".toList, 5000000000⟩ = Except.ok true :=
  createRestorePoint_then_verify env jobAB disk 5000000000 _ (wf_of_check disk (by decide))
    single_writesBelow (by decide) (by decide)

/-- C2 (counterexample): `/tmp/a.txt` was rewritten after registration; `createRestorePoint`
only checks that it exists and returns a restore point, whose `verifyIntegrity()` is false. -/
theorem createRestorePoint_stale_digest :
    (jobA.createRestorePoint env diskEditedA 5000000000).result
        = Except.ok ⟨jobA.objects, "/bk/restore_point_5".toList, 5000000000⟩
      ∧ RestorePoint.verifyIntegrity env (jobA.createRestorePoint env diskEditedA 5000000000).fs
          ⟨jobA.objects, "/bk/restore_point_5".toList, 5000000000⟩ = Except.ok false := by
  decide

theorem copy_regular_slot (fs : FS) (src dst : Path) (b : Str)
    (hsrc : fs.status src = Status.regular b)
    (hD : fs.node (resolve dst) = some Node.dir) (hout : ¬ resolve dst <+: resolve src)
    (hslot : FreeOrFile fs (resolve dst ++ [filename src])) :
    fs.copy src (pathJoin dst (filename src))
      = (true, fs.put (resolve dst ++ [filename src]) (Node.file b)) := by
  have hnm : ProperName (filename src) :=
    proper_filename src ((status_regular_iff fs src b).mp hsrc).2.1
  have hne : resolve dst ++ [filename src] ≠ resolve src :=
    fun h => hout (h ▸ List.prefix_append _ _)
  have hcopy : fs.copyFile src (pathJoin dst (filename src))
      = some (fs.put (resolve dst ++ [filename src]) (Node.file b)) := by
    unfold FS.copyFile
    rw [hsrc]
    simp only [needsDir_join dst _ hnm, Bool.false_eq_true, if_false]
    rw [resolve_join dst _ hnm]
    exact writeFile_slot fs b _ _ _ hD hne hslot
  unfold FS.copy
  rw [hsrc]
  simp only []
  have hst : fs.status (pathJoin dst (filename src)) = Status.notFound
      ∨ ∃ b0, fs.status (pathJoin dst (filename src)) = Status.regular b0 := by
    rcases hslot with h | ⟨b0, h⟩
    · left
      unfold FS.status
      rw [if_neg (join_ne_nil dst _ hnm), resolve_join dst _ hnm, h]
    · right
      exact ⟨b0, (status_regular_iff _ _ _).mpr
        ⟨join_ne_nil dst _ hnm, needsDir_join dst _ hnm, by rw [resolve_join dst _ hnm]; exact h⟩⟩
  rcases hst with h | ⟨b0, h⟩ <;> rw [h] <;> simp only [hcopy]

theorem singleStoreLoop_run (dst : Path) :
    ∀ (os : List BackupObject) (fs : FS), fs.node (resolve dst) = some Node.dir →
      (∀ o ∈ os, (fs.openRead o.path).isSome = true ∧ ¬ resolve dst <+: resolve o.path
        ∧ FreeOrFile fs (resolve dst ++ [filename o.path])) →
      ∃ fs', singleStoreLoop dst os fs = (Except.ok (), fs')
        ∧ (∀ k, (∀ o ∈ os, k ≠ resolve dst ++ [filename o.path]) → fs'.node k = fs.node k)
        ∧ ((os.map (fun o => filename o.path)).Nodup →
            ∀ o ∈ os, ∀ b, fs.openRead o.path = some b →
              fs'.node (resolve dst ++ [filename o.path]) = some (Node.file b))
  | [], fs, _, _ => ⟨fs, rfl, fun _ _ => rfl, fun _ o ho => by cases ho⟩
  | o :: os, fs, hD, h => by
    obtain ⟨hopen, hout, hslot⟩ := h o (List.mem_cons_self _ _)
    obtain ⟨b, hb⟩ := openRead_isSome_regular fs o.path hopen
    have hcopy := copy_regular_slot fs o.path dst b hb hD hout hslot
    have hslotD : resolve dst ++ [filename o.path] ≠ resolve dst := by
      intro h
      have := congrArg List.length h
      simp at this
    have hkeep : ∀ x ∈ os,
        (fs.put (resolve dst ++ [filename o.path]) (Node.file b)).node (resolve x.path)
          = fs.node (resolve x.path) := by
      intro x hx
      apply node_put_other
      intro hk
      exact (h x (List.mem_cons_of_mem _ hx)).2.1 (hk ▸ List.prefix_append _ _)
    obtain ⟨fs', hrun, hframe, hcontent⟩ := singleStoreLoop_run dst os
      (fs.put (resolve dst ++ [filename o.path]) (Node.file b))
      (by rw [node_put_other _ _ _ _ hslotD.symm]; exact hD)
      (fun x hx => by
        obtain ⟨hxo, hxout, hxslot⟩ := h x (List.mem_cons_of_mem _ hx)
        refine ⟨?_, hxout, ?_⟩
        · unfold FS.openRead at hxo ⊢
          rw [status_congr _ _ x.path (hkeep x hx)]
          exact hxo
        · by_cases hsame : filename x.path = filename o.path
          · right
            exact ⟨b, by rw [hsame]; exact node_put_self _ _ _ (by simp)⟩
          · unfold FreeOrFile
            rw [node_put_other _ _ _ _ (fun h => hsame (by simpa using h))]
            exact hxslot)
    refine ⟨fs', ?_, ?_, ?_⟩
    · rw [singleStoreLoop, exists_of_regular fs o b hb]
      simp only [hcopy, hrun]
    · intro k hk
      rw [hframe k (fun x hx => hk x (List.mem_cons_of_mem _ hx))]
      exact node_put_other _ _ _ _ (hk o (List.mem_cons_self _ _))
    · intro hnd x hx bx hbx
      rw [List.map_cons, List.nodup_cons] at hnd
      rcases List.mem_cons.mp hx with hx | hx
      · subst hx
        rw [hframe _ (fun y hy hk => hnd.1 (by
          have : filename x.path = filename y.path := by simpa using hk
          rw [this]
          exact List.mem_map_of_mem _ hy))]
        rw [openRead_of_regular fs x.path b hb] at hbx
        cases hbx
        exact node_put_self _ _ _ (by simp)
      · apply hcontent hnd.2 x hx bx
        unfold FS.openRead at hbx ⊢
        rw [status_congr _ _ x.path (hkeep x hx)]
        exact hbx

theorem checkAllExist_regular (fs : FS) :
    ∀ os : List BackupObject, (∀ o ∈ os, (fs.openRead o.path).isSome = true) →
      BackupJob.checkAllExist fs os = Except.ok ()
  | [], _ => rfl
  | o :: os, h => by
    obtain ⟨b, hb⟩ := openRead_isSome_regular fs o.path (h o (List.mem_cons_self _ _))
    rw [BackupJob.checkAllExist, exists_of_regular fs o b hb]
    exact checkAllExist_regular fs os (fun x hx => h x (List.mem_cons_of_mem _ hx))

theorem pathJoin_ne_nil (d q : Path) (hq : q ≠ []) : pathJoin d q ≠ [] := by
  unfold pathJoin
  split
  · exact hq
  · split <;> simp [hq]

/-- What `createRestorePoint` does with the flat-copy backend on readable files when the
restore-point directory can be created. -/
theorem createRestorePoint_single (E : Env) (job : BackupJob) (fs : FS) (now : Int)
    (hS : job.storageStrategy = SingleStorageStrategy) (hne : job.objects ≠ []) (hwf : fs.WF)
    (hfiles : ∀ o ∈ job.objects, (fs.openRead o.path).isSome = true)
    (hfresh : fs.node (resolve (job.restorePointPath E now)) = none)
    (hanc : fs.ancestorsOk (resolve (job.restorePointPath E now)) = true) :
    (job.createRestorePoint E fs now).result
        = Except.ok ⟨job.objects, job.restorePointPath E now, now⟩
      ∧ (job.createRestorePoint E fs now).job
        = { job with restorePoints :=
              job.restorePoints ++ [⟨job.objects, job.restorePointPath E now, now⟩] }
      ∧ (∀ k n, fs.node k = some n → (job.createRestorePoint E fs now).fs.node k = some n)
      ∧ ((job.objects.map (fun o => filename o.path)).Nodup →
          ∀ o ∈ job.objects, ∀ b, fs.openRead o.path = some b →
            (job.createRestorePoint E fs now).fs.node
              (resolve (job.restorePointPath E now) ++ [filename o.path]) = some (Node.file b)) := by
  have hrp : job.restorePointPath E now ≠ [] := pathJoin_ne_nil _ _ (by simp)
  have hcd : fs.createDirectories (job.restorePointPath E now)
      = Except.ok (true, fs.addDirs (resolve (job.restorePointPath E now)).inits) := by
    unfold FS.createDirectories
    rw [if_neg hrp, hfresh]
    simp only [hanc, if_true]
  obtain ⟨hdir, hkeep, hother⟩ := createDirectories_spec fs _ true _ hcd
  generalize fs.addDirs (resolve (job.restorePointPath E now)).inits = fs1 at hcd hdir hkeep hother
  have hinfo : ∀ o ∈ job.objects, ∃ b, fs.node (resolve o.path) = some (Node.file b)
      ∧ fs.status o.path = Status.regular b
      ∧ ¬ resolve (job.restorePointPath E now) <+: resolve o.path := by
    intro o ho
    obtain ⟨b, hb⟩ := openRead_isSome_regular fs o.path (hfiles o ho)
    have hn := ((status_regular_iff fs o.path b).mp hb).2.2
    refine ⟨b, hn, hb, fun hpre => ?_⟩
    rw [node_none_below fs hwf _ _ hfresh hpre] at hn
    cases hn
  have hstat1 : ∀ o ∈ job.objects, fs1.status o.path = fs.status o.path := by
    intro o ho
    obtain ⟨b, hn, _, _⟩ := hinfo o ho
    exact status_congr fs fs1 o.path (by rw [hkeep _ _ hn, hn])
  obtain ⟨fs2, hrun, hframe, hcontent⟩ := singleStoreLoop_run (job.restorePointPath E now)
    job.objects fs1 hdir (fun o ho => by
      obtain ⟨b, hn, hb, hout⟩ := hinfo o ho
      refine ⟨?_, hout, Or.inl ?_⟩
      · unfold FS.openRead
        rw [hstat1 o ho, hb]; rfl
      · rw [hother _ (fun hpre => by
          have := List.IsPrefix.length_le hpre
          simp at this)]
        exact node_none_below fs hwf _ _ hfresh (List.prefix_append _ _))
  have hstore : job.storageStrategy.store job.objects (job.restorePointPath E now) fs1
      = (Except.ok (), fs2) := by
    rw [hS]
    show singleStore _ _ _ = _
    unfold singleStore
    have : fs1.createDirectories (job.restorePointPath E now) = Except.ok (false, fs1) := by
      unfold FS.createDirectories
      rw [if_neg hrp, hdir]
    rw [this]
    exact hrun
  have hout : job.createRestorePoint E fs now
      = ⟨Except.ok ⟨job.objects, job.restorePointPath E now, now⟩,
          { job with restorePoints :=
              job.restorePoints ++ [⟨job.objects, job.restorePointPath E now, now⟩] }, fs2⟩ := by
    unfold BackupJob.createRestorePoint
    rw [if_neg hne, checkAllExist_regular fs job.objects hfiles]
    simp only [hcd, hstore, RestorePoint.construct, if_neg hne, if_neg hrp]
  rw [hout]
  refine ⟨rfl, rfl, ?_, ?_⟩
  · intro k n hk
    show fs2.node k = some n
    have hk1 := hkeep k n hk
    rw [hframe k (fun o ho hko => ?_)]
    · exact hk1
    · rw [hko, node_none_below fs hwf _ _ hfresh (List.prefix_append _ _)] at hk
      cases hk
  · intro hnd o ho b hb
    show fs2.node _ = _
    apply hcontent hnd o ho b
    unfold FS.openRead at hb ⊢
    rw [hstat1 o ho]
    exact hb

theorem targetReady_keeps (fs : FS) (T : Path) (fs0 : FS) (h : TargetReady fs T fs0) :
    ∀ k n, fs.node k = some n → fs0.node k = some n := by
  rcases h with ⟨_, h0⟩ | ⟨_, made, hc⟩
  · rw [h0]; exact fun _ _ h => h
  · exact (createDirectories_spec fs T made fs0 hc).2.1

/-- C7 (as amended): with the flat-copy backend, a non-empty registry of regular files that
still verify against their digests and have pairwise distinct file names, a job whose flag is
unset and no cancellation arriving, on a well-formed filesystem where the restore-point
directory does not exist yet and can be created: `createRestorePoint()` returns a point; and
when the target directory is there or can be made, is not the restore point's own directory, and
has nothing but regular files in the places of the registered file names, `restore` of that
point returns, after which for every registered path `p` the file `targetDir / filename(p)`
exists with the bytes of `p`, which `p` still has. -/
theorem flat_backup_restore (E : Env) (job : BackupJob) (fs fs0 : FS) (now : Int)
    (targetDir : Path)
    (hS : job.storageStrategy = SingleStorageStrategy) (hne : job.objects ≠ [])
    (hflag : job.operationCancelled = false) (hwf : fs.WF)
    (hfiles : ∀ o ∈ job.objects, o.verifyChecksum E fs = Except.ok true)
    (hnames : (job.objects.map (fun o => filename o.path)).Nodup)
    (hfresh : fs.node (resolve (job.restorePointPath E now)) = none)
    (hanc : fs.ancestorsOk (resolve (job.restorePointPath E now)) = true)
    (hT : TargetReady (job.createRestorePoint E fs now).fs targetDir fs0)
    (hout : resolve targetDir ≠ resolve (job.restorePointPath E now))
    (hslots : ∀ o ∈ job.objects, fs0.freeOrFile (pathJoin targetDir (filename o.path)) = true) :
    ∃ point, (job.createRestorePoint E fs now).result = Except.ok point
      ∧ ((job.createRestorePoint E fs now).job.restore E (job.createRestorePoint E fs now).fs
          point targetDir CancelSchedule.never).result = Except.ok ()
      ∧ ∀ o ∈ job.objects, ∃ b, fs.openRead o.path = some b
          ∧ ((job.createRestorePoint E fs now).job.restore E (job.createRestorePoint E fs now).fs
              point targetDir CancelSchedule.never).fs.openRead
                (pathJoin targetDir (filename o.path)) = some b
          ∧ ((job.createRestorePoint E fs now).job.restore E (job.createRestorePoint E fs now).fs
              point targetDir CancelSchedule.never).fs.openRead o.path = some b := by
  have hreg : ∀ o ∈ job.objects, ∃ b, fs.status o.path = Status.regular b :=
    fun o ho => verifyChecksum_true_regular E fs o (hfiles o ho)
  have hopen : ∀ o ∈ job.objects, (fs.openRead o.path).isSome = true := by
    intro o ho
    obtain ⟨b, hb⟩ := hreg o ho
    rw [openRead_of_regular fs o.path b hb]; rfl
  obtain ⟨hres, hjob, hkeep, hcontent⟩ :=
    createRestorePoint_single E job fs now hS hne hwf hopen hfresh hanc
  have hcontent := hcontent hnames
  generalize (job.createRestorePoint E fs now).fs = fsB at hT hkeep hcontent ⊢
  generalize (job.createRestorePoint E fs now).job = jobB at hjob ⊢
  have hflagB : jobB.operationCancelled = false := by rw [hjob]; exact hflag
  have hkeep0 := targetReady_keeps fsB targetDir fs0 hT
  -- the tracked files are as they were
  have hnodeB : ∀ o ∈ job.objects, ∀ b, fs.status o.path = Status.regular b →
      fsB.node (resolve o.path) = some (Node.file b) := by
    intro o ho b hb
    exact hkeep _ _ ((status_regular_iff fs o.path b).mp hb).2.2
  have hint : RestorePoint.verifyIntegrity E fsB ⟨job.objects, job.restorePointPath E now, now⟩
      = Except.ok true := by
    unfold RestorePoint.verifyIntegrity
    simp only []
    rw [verifyAll_congr E fs fsB job.objects]
    · exact verifyAll_true E fs job.objects hfiles
    · intro o ho
      obtain ⟨b, hb⟩ := hreg o ho
      apply status_congr
      rw [hnodeB o ho b hb, ((status_regular_iff fs o.path b).mp hb).2.2]
  refine ⟨⟨job.objects, job.restorePointPath E now, now⟩, hres, ?_⟩
  rw [restore_eq_loop E jobB fsB _ targetDir CancelSchedule.never fs0 hflagB hint hT]
  obtain ⟨h1, _, h3, h4⟩ := restoreLoop_run ⟨job.objects, job.restorePointPath E now, now⟩
    targetDir CancelSchedule.never job.objects.length job.objects.length job.objects 0 jobB fs0 []
    (Nat.le_refl _) hflagB (fun _ _ => ⟨rfl, rfl⟩) (fun h => absurd h (Nat.lt_irrefl _))
    (targetReady_node fsB targetDir fs0 hT) hout
    (fun o ho => by
      rw [List.take_length] at ho
      obtain ⟨b, hb⟩ := hreg o ho
      have hnd := ((status_regular_iff fs o.path b).mp hb).2.1
      exact ⟨hnd,
        ⟨b, hkeep0 _ _ (hcontent o ho b (openRead_of_regular fs o.path b hb))⟩,
        freeOrFile_join fs0 _ _ (proper_filename o.path hnd) (hslots o ho)⟩)
  rw [List.take_length] at h3 h4
  refine ⟨by simpa using h1, ?_⟩
  intro o ho
  obtain ⟨b, hb⟩ := hreg o ho
  have hnd := ((status_regular_iff fs o.path b).mp hb).2.1
  have hnm := proper_filename o.path hnd
  have hcopied : ∀ x ∈ job.objects, ∀ bx, fs.status x.path = Status.regular bx →
      (BackupJob.restoreLoop ⟨job.objects, job.restorePointPath E now, now⟩ targetDir
        CancelSchedule.never job.objects.length job.objects 0 jobB fs0 []).fs.node
          (resolve targetDir ++ [filename x.path]) = some (Node.file bx) := by
    intro x hx bx hbx
    rw [h4 x hx]
    exact hkeep0 _ _ (hcontent x hx bx (openRead_of_regular fs x.path bx hbx))
  refine ⟨b, openRead_of_regular fs o.path b hb, ?_, ?_⟩
  · rw [openRead_join _ _ _ hnm, hcopied o ho b hb]
  · apply openRead_of_regular
    refine (status_regular_iff _ _ _).mpr ⟨((status_regular_iff fs o.path b).mp hb).1, hnd, ?_⟩
    by_cases hex : ∃ x ∈ job.objects, resolve o.path = resolve targetDir ++ [filename x.path]
    · obtain ⟨x, hx, hkx⟩ := hex
      have hfn : filename o.path = filename x.path := by
        have := resolve_eq_append_filename o.path hnd
        rw [hkx] at this
        have := (List.append_inj' this rfl).2
        simpa using this.symm
      rw [hkx, ← hfn]
      exact hcopied o ho b hb
    · rw [h3 _ (fun x hx hk => hex ⟨x, hx, hk⟩)]
      exact hkeep0 _ _ (hnodeB o ho b hb)

/-- C7 (witness): `/tmp/a.txt`, `/tmp/b.txt`, `/tmp/c.txt` restored into `/tmp/out/`. -/
theorem flat_backup_restore_witness :
    ∃ point, (job3.createRestorePoint env disk4 5000000000).result = Except.ok point
      ∧ ((job3.createRestorePoint env disk4 5000000000).job.restore env
          (job3.createRestorePoint env disk4 5000000000).fs
          point "/tmp/out/".toList CancelSchedule.never).result = Except.ok ()
      ∧ ∀ o ∈ job3.objects, ∃ b, disk4.openRead o.path = some b
          ∧ ((job3.createRestorePoint env disk4 5000000000).job.restore env
              (job3.createRestorePoint env disk4 5000000000).fs
              point "/tmp/out/".toList CancelSchedule.never).fs.openRead
                (pathJoin "/tmp/out/".toList (filename o.path)) = some b
          ∧ ((job3.createRestorePoint env disk4 5000000000).job.restore env
              (job3.createRestorePoint env disk4 5000000000).fs
              point "/tmp/out/".toList CancelSchedule.never).fs.openRead o.path = some b :=
  flat_backup_restore env job3 disk4
    ((job3.createRestorePoint env disk4 5000000000).fs.addDirs
      (resolve "/tmp/out/".toList).inits)
    5000000000 "/tmp/out/".toList rfl (by decide) (by decide) (wf_of_check disk4 (by decide))
    (by decide) (by decide) (by decide) (by decide)
    (Or.inr ⟨by decide, true, by decide⟩) (by decide) (by decide)

/-- C7 (counterexample): `/tmp/a.txt` (bytes `A`) and `/tmp/d/a.txt` (bytes `D`) are registered
and unchanged; backup and restore into `/out` both return, and `/out/a.txt` holds `D`, not the
bytes `A` of `/tmp/a.txt`. -/
theorem flat_restore_same_basename :
    (jobTwoA.createRestorePoint env diskTwoA 5000000000).result
        = Except.ok ⟨jobTwoA.objects, "/bk/restore_point_5".toList, 5000000000⟩
      ∧ ((jobTwoA.createRestorePoint env diskTwoA 5000000000).job.restore env
          (jobTwoA.createRestorePoint env diskTwoA 5000000000).fs
          ⟨jobTwoA.objects, "/bk/restore_point_5".toList, 5000000000⟩
          "/out".toList CancelSchedule.never).result = Except.ok ()
      ∧ ((jobTwoA.createRestorePoint env diskTwoA 5000000000).job.restore env
          (jobTwoA.createRestorePoint env diskTwoA 5000000000).fs
          ⟨jobTwoA.objects, "/bk/restore_point_5".toList, 5000000000⟩
          "/out".toList CancelSchedule.never).fs.openRead
            (pathJoin "/out".toList (filename "/tmp/a.txt".toList)) = some "D".toList
      ∧ ((jobTwoA.createRestorePoint env diskTwoA 5000000000).job.restore env
          (jobTwoA.createRestorePoint env diskTwoA 5000000000).fs
          ⟨jobTwoA.objects, "/bk/restore_point_5".toList, 5000000000⟩
          "/out".toList CancelSchedule.never).fs.openRead "/tmp/a.txt".toList = some "A".toList := by
  decide

/-- C8 (counterexample): four objects; `cancelOperation()` is called after the second object
has been processed and not before, while the third is being handled (the flag had been read
for it).  `restore` throws the cancellation error, but three files have been copied:
`/out/c.txt` is there. -/
theorem restore_cancelled_during_third :
    saved4.result = Except.ok point4
      ∧ (saved4.job.restore env saved4.fs point4 "/out".toList cancelDuringThird).result
          = Except.error Error.cancelled
      ∧ (saved4.job.restore env saved4.fs point4 "/out".toList cancelDuringThird).fs.openRead
          "/out/c.txt".toList = some "C".toList
      ∧ (saved4.job.restore env saved4.fs point4 "/out".toList cancelDuringThird).fs.openRead
          "/out/d.txt".toList = none := by
  decide

/-- C8 (witness): four objects, cancellation once two have been processed. -/
theorem restore_cancelled_between_steps_witness :
    (saved4.job.restore env saved4.fs point4 "/out".toList cancelBeforeThird).result
        = Except.error Error.cancelled
      ∧ (saved4.job.restore env saved4.fs point4 "/out".toList
          cancelBeforeThird).job.operationCancelled = true
      ∧ (∀ o ∈ point4.objects.take 2,
          (saved4.job.restore env saved4.fs point4 "/out".toList cancelBeforeThird).fs.openRead
              (pathJoin "/out".toList (filename o.path))
            = (saved4.fs.addDirs (resolve "/out".toList).inits).openRead
                (pathJoin point4.location (filename o.path)))
      ∧ (∀ key, (∀ o ∈ point4.objects.take 2,
            key ≠ resolve (pathJoin "/out".toList (filename o.path))) →
          (saved4.job.restore env saved4.fs point4 "/out".toList cancelBeforeThird).fs.node key
            = (saved4.fs.addDirs (resolve "/out".toList).inits).node key) :=
  restore_cancelled_between_steps env saved4.job saved4.fs
    (saved4.fs.addDirs (resolve "/out".toList).inits) point4 "/out".toList cancelBeforeThird 2
    (by decide) (by decide) (Or.inr ⟨by decide, true, by decide⟩) (by decide) (by decide)
    (by decide) (by decide) (by decide)

/-! ### Change detection by the frozen digest -/

theorem calculateFileChecksum_of_open (E : Env) (fs : FS) (p : Path) (b : Str)
    (h : fs.openRead p = some b) : calculateFileChecksum E fs p = Except.ok (contentDigest E b) := by
  unfold calculateFileChecksum contentDigest
  rw [h]

theorem hexByte_mod (b : Nat) : hexByte (b % 256) = hexByte b := by
  unfold hexByte
  rw [Nat.mod_mod, Nat.mod_mod_of_dvd b (by decide : 16 ∣ 256)]

theorem hexDigest_congr (h h' : List Nat)
    (heq : ∀ i, i < 32 → h.getD i 0 % 256 = h'.getD i 0 % 256) : hexDigest h = hexDigest h' := by
  unfold hexDigest
  have : ∀ i ∈ List.range 32, hexByte (h.getD i 0) = hexByte (h'.getD i 0) := by
    intro i hi
    rw [← hexByte_mod (h.getD i 0), ← hexByte_mod (h'.getD i 0), heq i (List.mem_range.mp hi)]
  rw [List.flatMap, List.flatMap, List.map_congr_left this]

/-- Whatever the hash function, two different contents have the same digest: there are more
contents than digests of 32 bytes. -/
theorem digest_collision (E : Env) :
    ∃ b b' : Str, b ≠ b' ∧ contentDigest E b = contentDigest E b' := by
  obtain ⟨b, b', hne, heq⟩ := Finite.exists_ne_map_eq_of_infinite
    (fun bytes : Str => fun i : Fin 32 =>
      (⟨(E.sha.final (hashBlocks E.sha (bytes.length + 1) E.sha.init bytes)).getD i 0 % 256,
        Nat.mod_lt _ (by decide)⟩ : Fin 256))
  refine ⟨b, b', hne, hexDigest_congr _ _ (fun i hi => ?_)⟩
  have := congrFun heq ⟨i, hi⟩
  exact Fin.mk.inj_iff.mp this

theorem verifyChecksum_of_open (E : Env) (fs : FS) (o : BackupObject) (b : Str)
    (h : fs.openRead o.path = some b) :
    o.verifyChecksum E fs = Except.ok (contentDigest E b == o.storedChecksum) := by
  obtain ⟨b0, hb0⟩ := openRead_isSome_regular fs o.path (by rw [h]; rfl)
  unfold BackupObject.verifyChecksum BackupObject.calculateChecksum
  rw [exists_of_regular fs o b0 hb0, calculateFileChecksum_of_open E fs o.path b h]

theorem construct_of_open (E : Env) (fs : FS) (p : Path) (o : BackupObject) (b : Str)
    (hc : BackupObject.construct E fs p = Except.ok o) (hb : fs.openRead p = some b) :
    o = ⟨p, contentDigest E b⟩ := by
  unfold BackupObject.construct at hc
  rw [calculateFileChecksum_of_open E fs p b hb] at hc
  split at hc
  · cases hc
  · split at hc
    · cases hc
    · cases hc; rfl

/-- C11 (as amended): for a `BackupObject` constructed when its file held the bytes `b`,
`verifyChecksum()` on a later filesystem raises no error and is false when nothing is at the
path any more, is false when the file now holds bytes whose digest differs from the digest of
`b`, and is true when it holds bytes with the same digest; nothing but the filesystem is
consulted. -/
theorem verifyChecksum_detects (E : Env) (fs0 fs : FS) (p : Path) (o : BackupObject) (b : Str)
    (hc : BackupObject.construct E fs0 p = Except.ok o) (hb : fs0.openRead p = some b) :
    (fs.status p = Status.notFound → o.verifyChecksum E fs = Except.ok false)
      ∧ (∀ b', fs.openRead p = some b' → contentDigest E b' ≠ contentDigest E b →
          o.verifyChecksum E fs = Except.ok false)
      ∧ (∀ b', fs.openRead p = some b' → contentDigest E b' = contentDigest E b →
          o.verifyChecksum E fs = Except.ok true) := by
  have ho := construct_of_open E fs0 p o b hc hb
  subst ho
  refine ⟨?_, ?_, ?_⟩
  · intro hgone
    simp [BackupObject.verifyChecksum, BackupObject.exists, hgone]
  · intro b' hb' hne
    rw [verifyChecksum_of_open E fs _ b' hb']
    simp [hne]
  · intro b' hb' heq
    rw [verifyChecksum_of_open E fs _ b' hb']
    simp [heq]

/-- C11 (counterexample): no hash function makes `verifyChecksum()` false for every change of
the bytes. The digest is 32 bytes long, so two different contents `b` and `b2` share it, and
for the object constructed on `b` the check of a file that holds `b2` is true. -/
theorem digest_misses_some_change :
    ¬ ∃ E : Env, ∀ (fs0 fs : FS) (p : Path) (o : BackupObject) (b b' : Str),
        BackupObject.construct E fs0 p = Except.ok o → fs0.openRead p = some b →
        fs.openRead p = some b' → b' ≠ b → o.verifyChecksum E fs = Except.ok false := by
  rintro ⟨E, h⟩
  obtain ⟨b, b', hne, heq⟩ := digest_collision E
  have hopen : ∀ c : Str, (FS.mk [(["f".toList], Node.file c)]).openRead "/f".toList = some c := by
    intro c
    rfl
  have hcons : BackupObject.construct E (FS.mk [(["f".toList], Node.file b)]) "/f".toList
      = Except.ok ⟨"/f".toList, contentDigest E b⟩ := by
    unfold BackupObject.construct
    rw [calculateFileChecksum_of_open E _ _ b (hopen b)]
    rfl
  have hfalse := h _ (FS.mk [(["f".toList], Node.file b')]) _ _ b b' hcons (hopen b) (hopen b')
    (fun h => hne h.symm)
  rw [verifyChecksum_of_open E _ _ b' (hopen b')] at hfalse
  simp [heq] at hfalse

/-- C11 (witness): `/tmp/a.txt` registered with the content "A", then deleted, or rewritten
to "Z". -/
theorem verifyChecksum_detects_witness :
    (diskWithoutA.status "/tmp/a.txt".toList = Status.notFound →
        BackupObject.verifyChecksum env diskWithoutA ⟨"/tmp/a.txt".toList, contentDigest env "A".toList⟩
          = Except.ok false)
      ∧ BackupObject.verifyChecksum env diskEditedA ⟨"/tmp/a.txt".toList, contentDigest env "A".toList⟩
          = Except.ok false :=
  ⟨(verifyChecksum_detects env disk diskWithoutA "/tmp/a.txt".toList _ "A".toList
      (by decide) (by decide)).1,
    (verifyChecksum_detects env disk diskEditedA "/tmp/a.txt".toList _ "A".toList
      (by decide) (by decide)).2.1 "Z".toList (by decide) (by decide)⟩

/-! ### Removing a registry entry -/

theorem filter_length_eq_iff (keep : BackupObject → Bool) (l : List BackupObject) :
    (l.filter keep).length = l.length ↔ ∀ o ∈ l, keep o = true := by
  constructor
  · intro h
    exact List.filter_eq_self.mp ((List.filter_sublist l).eq_of_length h)
  · intro h
    rw [List.filter_eq_self.mpr h]

theorem removeObject_result (job : BackupJob) (fs : FS) (p : Path) :
    (job.removeObject fs p).result
      = if (job.objects.filter (fun o => !pathEq o.path p)).length = job.objects.length
        then Except.error (Error.notFound p) else Except.ok () := by
  unfold BackupJob.removeObject
  simp only []
  split <;> rfl

theorem removeObject_objects (job : BackupJob) (fs : FS) (p : Path) :
    (job.removeObject fs p).job.objects = job.objects.filter (fun o => !pathEq o.path p) := by
  unfold BackupJob.removeObject
  simp only []
  split <;> rfl

theorem removeObject_frame (job : BackupJob) (fs : FS) (p : Path) :
    (job.removeObject fs p).job.restorePoints = job.restorePoints
      ∧ (job.removeObject fs p).fs = fs := by
  unfold BackupJob.removeObject
  simp only []
  split <;> exact ⟨rfl, rfl⟩

/-- C12: `removeObject(p)` fails with the not-found error if and only if no registry entry has
a path equal to `p`, and then the registry is unchanged; otherwise it succeeds. In both cases
the new registry is the old one without the entries for `p`, the others in their original
order, and the restore-point history (with the object lists of its points) and the filesystem
are unchanged. -/
theorem removeObject_spec (job : BackupJob) (fs : FS) (p : Path) :
    ((job.removeObject fs p).result = Except.error (Error.notFound p)
        ↔ ∀ o ∈ job.objects, pathEq o.path p = false)
      ∧ ((∀ o ∈ job.objects, pathEq o.path p = false) →
          (job.removeObject fs p).job.objects = job.objects)
      ∧ (¬ (∀ o ∈ job.objects, pathEq o.path p = false) →
          (job.removeObject fs p).result = Except.ok ())
      ∧ (job.removeObject fs p).job.objects
          = job.objects.filter (fun o => !pathEq o.path p)
      ∧ (job.removeObject fs p).job.restorePoints = job.restorePoints
      ∧ (job.removeObject fs p).fs = fs := by
  have hiff : (job.objects.filter (fun o => !pathEq o.path p)).length = job.objects.length
      ↔ ∀ o ∈ job.objects, pathEq o.path p = false := by
    rw [filter_length_eq_iff]
    simp
  rw [removeObject_result, removeObject_objects]
  refine ⟨?_, ?_, ?_, rfl, removeObject_frame job fs p⟩
  · rw [← hiff]
    constructor
    · intro h
      by_contra hlen
      rw [if_neg hlen] at h
      cases h
    · intro h
      rw [if_pos h]
  · intro h
    exact List.filter_eq_self.mpr (fun o ho => by simp [h o ho])
  · intro h
    rw [if_neg (fun hlen => h (hiff.mp hlen))]

/-! ### Integrity of a restore point -/

theorem verifyAll_append_false (E : Env) (fs : FS) (o : BackupObject) (post : List BackupObject)
    (ho : o.verifyChecksum E fs = Except.ok false) :
    ∀ pre : List BackupObject, (∀ x ∈ pre, x.verifyChecksum E fs = Except.ok true) →
      RestorePoint.verifyAll E fs (pre ++ o :: post) = Except.ok false
  | [], _ => by
    rw [List.nil_append]
    unfold RestorePoint.verifyAll
    rw [ho]
  | x :: pre, h => by
    rw [List.cons_append]
    unfold RestorePoint.verifyAll
    rw [h x (List.mem_cons_self _ _)]
    exact verifyAll_append_false E fs o post ho pre (fun y hy => h y (List.mem_cons_of_mem _ hy))

theorem verifyAll_append_error (E : Env) (fs : FS) (o : BackupObject) (post : List BackupObject)
    (e : Error) (ho : o.verifyChecksum E fs = Except.error e) :
    ∀ pre : List BackupObject, (∀ x ∈ pre, x.verifyChecksum E fs = Except.ok true) →
      RestorePoint.verifyAll E fs (pre ++ o :: post) = Except.error e
  | [], _ => by
    rw [List.nil_append]
    unfold RestorePoint.verifyAll
    rw [ho]
  | x :: pre, h => by
    rw [List.cons_append]
    unfold RestorePoint.verifyAll
    rw [h x (List.mem_cons_self _ _)]
    exact verifyAll_append_error E fs o post e ho pre
      (fun y hy => h y (List.mem_cons_of_mem _ hy))

theorem verifyAll_true_inv (E : Env) (fs : FS) :
    ∀ os : List BackupObject, RestorePoint.verifyAll E fs os = Except.ok true →
      ∀ o ∈ os, o.verifyChecksum E fs = Except.ok true
  | [], _ => fun o ho => absurd ho (List.not_mem_nil o)
  | x :: os, h => by
    unfold RestorePoint.verifyAll at h
    intro o ho
    cases hx : x.verifyChecksum E fs with
    | error e => rw [hx] at h; cases h
    | ok b =>
      cases b with
      | false => rw [hx] at h; cases h
      | true =>
        rw [hx] at h
        rcases List.mem_cons.mp ho with rfl | hmem
        · exact hx
        · exact verifyAll_true_inv E fs os h o hmem

/-- C13 (as amended): `verifyIntegrity()` is true iff `verifyChecksum()` of every member is
true; and when the members before some member all check true, it returns false if the check
of that member is false, whatever the later members would do (an error included), and raises
the error of that member if its check raises one. -/
theorem verifyIntegrity_first_failure (E : Env) (fs : FS) (point : RestorePoint) :
    (point.verifyIntegrity E fs = Except.ok true
        ↔ ∀ o ∈ point.objects, o.verifyChecksum E fs = Except.ok true)
      ∧ (∀ (pre post : List BackupObject) (o : BackupObject),
          point.objects = pre ++ o :: post →
          (∀ x ∈ pre, x.verifyChecksum E fs = Except.ok true) →
          (o.verifyChecksum E fs = Except.ok false →
              point.verifyIntegrity E fs = Except.ok false)
            ∧ (∀ e, o.verifyChecksum E fs = Except.error e →
              point.verifyIntegrity E fs = Except.error e)) := by
  unfold RestorePoint.verifyIntegrity
  refine ⟨⟨verifyAll_true_inv E fs point.objects, verifyAll_true E fs point.objects⟩, ?_⟩
  intro pre post o hsplit hpre
  rw [hsplit]
  exact ⟨fun ho => verifyAll_append_false E fs o post ho pre hpre,
    fun e ho => verifyAll_append_error E fs o post e ho pre hpre⟩

/-- C13 (witness): members `a`, `b`, `x` where `b` was rewritten and the check of `x` would
raise an error: the result is false and the error is not raised. -/
theorem verifyIntegrity_first_failure_witness :
    (BackupObject.construct env diskX "/tmp/a.txt".toList = Except.ok objA
        ∧ BackupObject.construct env diskX "/tmp/b.txt".toList = Except.ok objB
        ∧ BackupObject.construct env diskX "/tmp/x.txt".toList = Except.ok objX)
      ∧ (pointABX.objects = [objA] ++ objB :: [objX]
        ∧ objA.verifyChecksum env diskBX = Except.ok true
        ∧ objB.verifyChecksum env diskBX = Except.ok false
        ∧ objX.verifyChecksum env diskBX = Except.error Error.existsFailed)
      ∧ pointABX.verifyIntegrity env diskBX = Except.ok false :=
  ⟨by decide, by decide,
    ((verifyIntegrity_first_failure env diskBX pointABX).2 [objA] [objX] objB (by decide)
      (by decide)).1 (by decide)⟩

/-- C13 (counterexample): members `x`, `b` where the check of `b` is false but the check of
`x`, which comes first, raises an error: `verifyIntegrity()` raises that error instead of
returning false. -/
theorem verifyIntegrity_earlier_error :
    (BackupObject.construct env diskX "/tmp/x.txt".toList = Except.ok objX
        ∧ BackupObject.construct env diskX "/tmp/b.txt".toList = Except.ok objB)
      ∧ pointXB.objects = [objX, objB]
      ∧ objX.verifyChecksum env diskBX = Except.error Error.existsFailed
      ∧ objB.verifyChecksum env diskBX = Except.ok false
      ∧ pointXB.verifyIntegrity env diskBX = Except.error Error.existsFailed := by
  decide

end Backup
